import Mathlib

/-!
Verification model of src/split_data.py.

The script is embedded shallowly:

* A directory is an association list from file names to file contents, in listing
  order; os.listdir is the list of keys, taken as a snapshot before each loop,
  exactly as Python's for-loop over os.listdir does.
* Text files are modelled as their list of lines, each line as its list of
  whitespace-separated fields; each field is a real String, rendered and parsed
  by executable decimal rendering and parsing functions below.
* Python floats are modelled as exact rationals.  A binary float is a dyadic
  rational (structure FP); Python's repr of a float produces a decimal string
  that parses back to the exact same value, which the exact fixed-point
  rendering renderFixed reproduces faithfully.
* The external libraries are modelled narrowly: PIL blur and the albumentations
  image rotation become constructors of ImgData; the albumentations bounding-box
  transform (which may drop boxes whose projection leaves the frame) is an
  explicit function parameter of type BoxTransform.
* Python exceptions become an Except monad: each constructor of Err records one
  concrete crash mode of the script.  Uncaught exceptions abort the whole fold,
  exactly as they abort the Python loop.
-/

namespace SplitDataModel

/-- Lower-case one ASCII character, as Python str.lower does on ASCII file names. -/
def lowerChar (c : Char) : Char :=
  if 'A' ≤ c ∧ c ≤ 'Z' then Char.ofNat (c.toNat + 32) else c

/-- The decimal digit character of d, for d < 10. -/
def digitChar (d : ℕ) : Char :=
  if d = 0 then '0' else if d = 1 then '1' else if d = 2 then '2' else if d = 3 then '3'
  else if d = 4 then '4' else if d = 5 then '5' else if d = 6 then '6' else if d = 7 then '7'
  else if d = 8 then '8' else '9'

/-- Numeric value of a decimal digit character, none on any other character. -/
def digVal (c : Char) : Option ℕ :=
  if 48 ≤ c.toNat ∧ c.toNat ≤ 57 then some (c.toNat - 48) else none

/-- Fold a digit-character list (most significant first) into a natural number. -/
def parseNatAux : ℕ → List Char → Option ℕ
  | acc, [] => some acc
  | acc, c :: cs =>
    match digVal c with
    | some d => parseNatAux (acc * 10 + d) cs
    | none => none

/-- Parse a nonempty all-digit character list as a natural number. -/
def parseNatChars (l : List Char) : Option ℕ :=
  match l with
  | [] => none
  | _ :: _ => parseNatAux 0 l

/-- Decimal digit characters of n, least significant first; the first argument is
structural fuel, adequate whenever n is at most the fuel. -/
def natDigitsAux : ℕ → ℕ → List Char
  | _, 0 => []
  | 0, _ + 1 => []
  | fuel + 1, n + 1 => digitChar ((n + 1) % 10) :: natDigitsAux fuel ((n + 1) / 10)

/-- Decimal representation of a natural number, as Python prints an int. -/
def natRepr (n : ℕ) : List Char :=
  if n = 0 then ['0'] else (natDigitsAux n n).reverse

/-- Decimal representation of an integer, with a leading minus sign when negative. -/
def intRepr (n : ℤ) : List Char :=
  if n < 0 then '-' :: natRepr n.natAbs else natRepr n.natAbs

/-- Exact fixed-point decimal rendering of n / 10 ^ k.  This models the decimal
text Python produces for a float: Python repr emits a decimal string that reads
back to the exact same binary value, and for a value n / 10 ^ k the exact
k-digit rendering has that same read-back property. -/
def renderFixed (n : ℤ) (k : ℕ) : List Char :=
  if k = 0 then intRepr n
  else
    let a := n.natAbs
    let ipart := natRepr (a / 10 ^ k)
    let fdigits := natRepr (a % 10 ^ k)
    let fpad := List.replicate (k - fdigits.length) '0' ++ fdigits
    let core := ipart ++ '.' :: fpad
    if n < 0 then '-' :: core else core

/-- Parse an unsigned decimal literal, an optional point separating integer part
and fraction digits, as Python float() accepts.  The value is assembled with
mkRat, which is exactly the rational value of the literal. -/
def parseUnsignedChars (l : List Char) : Option ℚ :=
  let ip := l.takeWhile (fun c => c != '.')
  let rest := l.dropWhile (fun c => c != '.')
  match rest with
  | [] => (parseNatChars ip).map (fun i => (i : ℚ))
  | _ :: fracs =>
    match parseNatChars ip, parseNatChars fracs with
    | some i, some f => some (mkRat ((i : ℤ) * 10 ^ fracs.length + f) (10 ^ fracs.length))
    | _, _ => none

/-- Parse a signed decimal literal, modelling Python float() on the strings the
script reads and writes. -/
def parseFloatChars (l : List Char) : Option ℚ :=
  match l with
  | [] => none
  | c :: rest =>
    if c = '-' then (parseUnsignedChars rest).map (fun q => -q)
    else parseUnsignedChars (c :: rest)

/-- A binary floating-point value, mantissa over a power of two; every Python
float is exactly such a dyadic rational. -/
structure FP where
  m : ℤ
  e : ℕ
deriving DecidableEq

/-- The rational value of a dyadic float. -/
def FP.val (f : FP) : ℚ := (f.m : ℚ) / 2 ^ f.e

/-- Decimal rendering of a dyadic float: m / 2 ^ e equals (m * 5 ^ e) / 10 ^ e,
rendered exactly with e decimal places. -/
def renderFP (f : FP) : List Char := renderFixed (f.m * 5 ^ f.e) f.e

/-- Python int() truncation toward zero of a rational. -/
def ratTrunc (q : ℚ) : ℤ := q.num.tdiv q.den

/-- Python str.lower on a string. -/
def strLower (s : String) : String := ⟨s.data.map lowerChar⟩

/-- Python str.endswith on a string. -/
def strEndsWith (s sfx : String) : Bool := sfx.data.isSuffixOf s.data

/-- Worker for Python str.replace: scan left to right; the numeric argument is
how many already-consumed characters of a match remain to be skipped. -/
def replAux (pat rep : List Char) : List Char → ℕ → List Char
  | [], _ => []
  | _ :: cs, skip + 1 => replAux pat rep cs skip
  | c :: cs, 0 =>
    if pat ≠ [] ∧ pat.isPrefixOf (c :: cs) then
      rep ++ replAux pat rep cs (pat.length - 1)
    else c :: replAux pat rep cs 0

/-- Python str.replace: replace every non-overlapping occurrence of pat, left to
right.  (Python's behavior on an empty pattern is not needed and not modelled.) -/
def strReplace (s pat rep : String) : String := ⟨replAux pat.data rep.data s.data 0⟩

/-- Worker for os.path.splitext: split before the last dot.  (Python's special
case for names consisting of leading dots only is not needed by the script's
inputs and not modelled.) -/
def splitextAux : List Char → List Char × List Char
  | [] => ([], [])
  | c :: cs =>
    if '.' ∈ cs then ((c :: (splitextAux cs).1), (splitextAux cs).2)
    else if c = '.' then ([], c :: cs)
    else (c :: cs, [])

/-- os.path.splitext on a base name. -/
def splitext (s : String) : String × String :=
  (⟨(splitextAux s.data).1⟩, ⟨(splitextAux s.data).2⟩)

/-- Image pixel data, abstractly: an original file, or the output of the PIL
Gaussian blur, or the output of the albumentations rotation. -/
inductive ImgData
  | file (idn : ℕ)
  | blurred (src : ImgData)
  | rotated (src : ImgData)
deriving DecidableEq

/-- Contents of one file: an image, or a text file given as its lines, each line
as its list of whitespace-separated fields. -/
inductive FileData
  | image (px : ImgData)
  | text (lines : List (List String))
deriving DecidableEq

/-- One directory: file names with their contents, in listing order. -/
abbrev Dir := List (String × FileData)

/-- Contents of the named file, if present. -/
def lookup : Dir → String → Option FileData
  | [], _ => none
  | e :: es, n => if e.1 = n then some e.2 else lookup es n

/-- Delete the named file. -/
def removeEntry : Dir → String → Dir
  | [], _ => []
  | e :: es, n => if e.1 = n then removeEntry es n else e :: removeEntry es n

/-- Write a file: any previous file of that name is replaced. -/
def writeEntry (d : Dir) (n : String) (f : FileData) : Dir :=
  removeEntry d n ++ [(n, f)]

/-- os.listdir: the file names of a directory. -/
def listdir (d : Dir) : List String := d.map Prod.fst

/-- The crash and error modes of the script.  ratioInvalid is the InvalidRatio
failure the specification describes; it is declared here so that its absence
from every code path can be stated, the code itself never raises it. -/
inductive Err
  | ratioInvalid
  | malformedLine
  | unboundLocal
  | decodeFail
  | imageUnreadable
  | srcMissing
deriving DecidableEq

/-- A bounding box as the four floats of one label line, center x, center y,
width, height, all parsed. -/
abbrev Box4 := ℚ × ℚ × ℚ × ℚ

/-- Line 105: class_id, center_x, center_y, width, height = map(float, line.strip().split()).
A line with other than five fields, or any non-numeric field, raises ValueError. -/
def parseLine (tokens : List String) : Except Err (ℚ × Box4) :=
  match tokens with
  | [c, x, y, w, h] =>
    match parseFloatChars c.data, parseFloatChars x.data, parseFloatChars y.data,
        parseFloatChars w.data, parseFloatChars h.data with
    | some cv, some xv, some yv, some wv, some hv => .ok (cv, (xv, yv, wv, hv))
    | _, _, _, _, _ => .error .malformedLine
  | _ => .error .malformedLine

/-- Lines 104 to 107: parse every label line in order; the first bad line
aborts the call with its ValueError. -/
def parseLines : List (List String) → Except Err (List (ℚ × Box4))
  | [] => .ok []
  | line :: rest =>
    match parseLine line with
    | .ok b =>
      match parseLines rest with
      | .ok bs => .ok (b :: bs)
      | .error e => .error e
    | .error e => .error e

/-- A bounding box as the albumentations transform returns it, four floats. -/
structure YBox where
  x : FP
  y : FP
  w : FP
  h : FP
deriving DecidableEq

/-- Line 122: the f-string writing one label line, the truncated integer class id
followed by the four floats of the box. -/
def writeBoxLine (cls : ℚ) (b : YBox) : List String :=
  [⟨intRepr (ratTrunc cls)⟩, ⟨renderFP b.x⟩, ⟨renderFP b.y⟩, ⟨renderFP b.w⟩, ⟨renderFP b.h⟩]

/-- Lines 120 to 122: the written annotation text, one line per zipped pair of a
transformed box and a class id. -/
def serializeBoxes (pairs : List (YBox × ℚ)) : List (List String) :=
  pairs.map (fun p => writeBoxLine p.2 p.1)

/-- The externally supplied albumentations bounding-box transform of one call:
from the parsed boxes to the transformed boxes, possibly fewer when a box's
projection leaves the frame and is dropped by the library. -/
abbrev BoxTransform := List Box4 → List YBox

/-- One iteration of the loop of blur_images, lines 38 to 67, acting on the
directory (input_dir and output_dir are the same directory, as split_data
invokes it).  A listed .png name that cannot be opened as an image aborts with
the PIL decode error; a missing label file is only a warning. -/
def blurStep (st : Dir) (filename : String) : Except Err Dir :=
  if strEndsWith (strLower filename) ".png" then
    match lookup st filename with
    | some (.image px) =>
      let be := splitext filename
      let newFilename := be.1 ++ "-blurry" ++ be.2
      let st1 := writeEntry st newFilename (.image (.blurred px))
      let labelFile := be.1 ++ ".txt"
      match lookup st1 labelFile with
      | some lf => .ok (writeEntry st1 (be.1 ++ "-blurry.txt") lf)
      | none => .ok st1
    | _ => .error .imageUnreadable
  else .ok st

/-- blur_images, lines 24 to 67, as split_data invokes it with input_dir equal
to output_dir: iterate over a snapshot of the listing, writing into the same
directory. -/
def blur_images (d : Dir) : Except Err Dir :=
  (listdir d).foldlM blurStep d

/-- Loop state of rotate_image_and_labels: the directory, and the values of
new_image_filename and new_label_filename if an iteration has assigned them. -/
structure RotSt where
  dir : Dir
  lastNames : Option (String × String)

/-- One iteration of the loop of rotate_image_and_labels, lines 88 to 127.
The label path is the filename with the case-sensitive replacement of .png by
.txt; a missing label prints a warning, after which the progress print reads
new_image_filename, which is unassigned if no earlier iteration assigned it
(Python UnboundLocalError).  A malformed label line raises ValueError; reading
a binary file as the label raises a decode error.  All of these abort the loop. -/
def rotStep (tr : BoxTransform) (st : RotSt) (filename : String) : Except Err RotSt :=
  if strEndsWith (strLower filename) ".png" then
    match lookup st.dir filename with
    | some (.image px) =>
      match lookup st.dir (strReplace filename ".png" ".txt") with
      | some (.text lines) =>
        match parseLines lines with
        | .ok parsed =>
          let bboxes := parsed.map Prod.snd
          let classLabels := parsed.map Prod.fst
          let transformedBboxes := tr bboxes
          let newImageFilename := strReplace filename ".png" "-rotated.png"
          let newLabelFilename := strReplace filename ".png" "-rotated.txt"
          let d1 := writeEntry st.dir newImageFilename (.image (.rotated px))
          let d2 := writeEntry d1 newLabelFilename
            (.text (serializeBoxes (transformedBboxes.zip classLabels)))
          .ok ⟨d2, some (newImageFilename, newLabelFilename)⟩
        | .error e => .error e
      | some (.image _) => .error .decodeFail
      | none =>
        match st.lastNames with
        | some _ => .ok st
        | none => .error .unboundLocal
    | _ => .error .imageUnreadable
  else .ok st

/-- rotate_image_and_labels, lines 70 to 127, as split_data invokes it with
input_dir equal to output_dir: iterate over a snapshot of the listing, writing
into the same directory. -/
def rotate_image_and_labels (tr : BoxTransform) (d : Dir) : Except Err Dir := do
  let st ← (listdir d).foldlM (rotStep tr) ⟨d, none⟩
  pure st.dir

/-- Line 150: the .png listing of the pool, with the case-sensitive endswith test. -/
def image_files (d : Dir) : List String :=
  (listdir d).filter (fun f => strEndsWith f ".png")

/-- split_data, lines 140 to 166.  The directory state is threaded through and
returned next to the three name lists.  The random shuffle is the function
parameter sh; test_ratio is accepted and, as in the source, never used.  No
ratio validation of any kind is performed. -/
def split_data (tr : BoxTransform) (sh : List String → List String) (combined : Dir)
    (augment : Bool) (train_ratio val_ratio test_ratio : ℚ) :
    Except Err (Dir × List String × List String × List String) := do
  let d1 ←
    if augment then do
      let da ← blur_images combined
      rotate_image_and_labels tr da
    else pure combined
  let shuffled := sh (image_files d1)
  let totalImages := shuffled.length
  let trainCount := (Rat.floor ((totalImages : ℚ) * train_ratio)).toNat
  let valCount := (Rat.floor ((totalImages : ℚ) * val_ratio)).toNat
  let trainFiles := shuffled.take trainCount
  let valFiles := (shuffled.drop trainCount).take valCount
  let testFiles := shuffled.drop (trainCount + valCount)
  pure (d1, trainFiles, valFiles, testFiles)

/-- One iteration of the loop of move_files, lines 170 to 183: shutil.move the
image into the images area (FileNotFoundError if the source is absent), then,
if the matching label exists, shutil.move it into the labels area; a missing
label is only a warning. -/
def moveStep (st : Dir × Dir × Dir) (file : String) : Except Err (Dir × Dir × Dir) :=
  match lookup st.1 file with
  | none => .error .srcMissing
  | some fd =>
    let c1 := removeEntry st.1 file
    let ti1 := writeEntry st.2.1 file fd
    let labelFile := strReplace file ".png" ".txt"
    match lookup c1 labelFile with
    | some lf => .ok (removeEntry c1 labelFile, ti1, writeEntry st.2.2 labelFile lf)
    | none => .ok (c1, ti1, st.2.2)

/-- move_files, lines 169 to 183.  The three directories are the combined pool,
the images area and the labels area of the target subset. -/
def move_files (files : List String) (combined targetImages targetLabels : Dir) :
    Except Err (Dir × Dir × Dir) :=
  files.foldlM moveStep (combined, targetImages, targetLabels)

deriving instance DecidableEq for Except

/-- A transform standing in for an arbitrary albumentations call in runs whose
box output is irrelevant. -/
def trNone : BoxTransform := fun _ => []

/-- A two-image pool. -/
def poolAB : Dir := [("a.png", .image (.file 0)), ("b.png", .image (.file 1))]

/-- A three-image pool. -/
def poolABC : Dir :=
  [("a.png", .image (.file 0)), ("b.png", .image (.file 1)), ("c.png", .image (.file 2))]

/-- A pool holding images a and b and a label for a only. -/
def moveSrcDir : Dir :=
  [("a.png", .image (.file 0)), ("a.txt", .text [["0", "0.5", "0.5", "0.5", "0.5"]]),
   ("b.png", .image (.file 1))]

/-- A destination images area already holding an unrelated file c.png. -/
def destImagesC : Dir := [("c.png", .image (.file 9))]

/-- A source directory from which a.png is absent, as after a prior run moved it. -/
def srcOnlyB : Dir := [("b.png", .image (.file 1))]

/-- The dyadic float one half. -/
def fpHalf : FP := ⟨1, 1⟩

/-- The dyadic float one quarter. -/
def fpQuarter : FP := ⟨1, 2⟩

/-- A transform modelling an albumentations rotation under which the middle one
of three boxes projects outside the frame: the library returns only the two
surviving transformed boxes, those of input boxes 0 and 2. -/
def trDropMiddle : BoxTransform :=
  fun _ => [⟨fpHalf, fpHalf, fpHalf, fpHalf⟩, ⟨fpQuarter, fpQuarter, fpQuarter, fpQuarter⟩]

/-- A sample with three boxes of classes 0, 1 and 2. -/
def dirThreeBoxes : Dir :=
  [("s.png", .image (.file 0)),
   ("s.txt", .text [["0", "0.25", "0.25", "0.1", "0.1"],
                    ["1", "0.5", "0.5", "0.1", "0.1"],
                    ["2", "0.75", "0.75", "0.1", "0.1"]])]

/-- A concrete box list for the round-trip witness: one box of class 2 with all
four coordinates one half. -/
def sampleBoxPairs : List (YBox × ℚ) := [(⟨fpHalf, fpHalf, fpHalf, fpHalf⟩, 2)]

/-- One pool sample, structurally: a base name (as characters), the image data,
and the label file content.  Used to describe whole pools for the
augmentation-pipeline theorems. -/
abbrev PoolSample := List Char × ImgData × List (List String)

/-- The .png file name of a base. -/
def pngS (b : List Char) : String := ⟨b ++ ".png".data⟩

/-- The .txt file name of a base. -/
def txtS (b : List Char) : String := ⟨b ++ ".txt".data⟩

/-- The characters of the blur name tag. -/
def blSfx : List Char := "-blurry".data

/-- The characters of the rotation name tag. -/
def roSfx : List Char := "-rotated".data

/-- The pool directory described by a sample list: for each sample its image
file and its label file, in listing order. -/
def poolOf (samples : List PoolSample) : Dir :=
  samples.flatMap (fun s => [(pngS s.1, .image s.2.1), (txtS s.1, .text s.2.2)])

/-- The files the blur pass appends for the given samples: the blurred image
and the verbatim label copy, both carrying the blurry tag. -/
def blurOut (samples : List PoolSample) : Dir :=
  samples.flatMap (fun s =>
    [(pngS (s.1 ++ blSfx), .image (.blurred s.2.1)), (txtS (s.1 ++ blSfx), .text s.2.2)])

/-- The samples the blur pass derives: the blurry-tagged base, the blurred
image, the same label content. -/
def blurUnits (samples : List PoolSample) : List PoolSample :=
  samples.map (fun s => (s.1 ++ blSfx, .blurred s.2.1, s.2.2))

/-- The label content the rotation pass writes for a sample whose label parses:
the zip of the transformed boxes with the stale class list, serialized. -/
def rotLabel (tr : BoxTransform) (L : List (List String)) : List (List String) :=
  match parseLines L with
  | .ok parsed => serializeBoxes ((tr (parsed.map Prod.snd)).zip (parsed.map Prod.fst))
  | .error _ => []

/-- The files the rotation pass appends for the given samples: the rotated
image and the rewritten label, both carrying the rotated tag. -/
def rotOut (tr : BoxTransform) (units : List PoolSample) : Dir :=
  units.flatMap (fun s =>
    [(pngS (s.1 ++ roSfx), .image (.rotated s.2.1)),
     (txtS (s.1 ++ roSfx), .text (rotLabel tr s.2.2))])

/-- The samples the rotation pass derives: the rotated-tagged base, the rotated
image, the rewritten label content. -/
def rotUnits (tr : BoxTransform) (units : List PoolSample) : List PoolSample :=
  units.map (fun s => (s.1 ++ roSfx, .rotated s.2.1, rotLabel tr s.2.2))

/-- Whether a label content parses without error. -/
def parseOk (L : List (List String)) : Bool :=
  match parseLines L with
  | .ok _ => true
  | .error _ => false

/-- A one-sample structured pool for the pipeline witness. -/
def samplesA : List PoolSample := [(['a'], .file 0, [["0", "0.5", "0.5", "0.5", "0.5"]])]

/-- A pool holding one image with an uppercase raster extension. -/
def dirUpper : Dir := [("X.PNG", .image (.file 0))]

/-- The uppercase-extension pool after the blur pass. -/
def dirUpperBlurred : Dir :=
  [("X.PNG", .image (.file 0)), ("X-blurry.PNG", .image (.blurred (.file 0)))]

/-- A pool whose first sample has a malformed annotation and whose second
sample is in order. -/
def dirMalformed : Dir :=
  [("bad.png", .image (.file 0)), ("bad.txt", .text [["garbage"]]),
   ("good.png", .image (.file 1)), ("good.txt", .text [["0", "0.5", "0.5", "0.5", "0.5"]])]

end SplitDataModel

namespace SplitDataModel

theorem rat_floor_eq_intFloor (q : ℚ) : Rat.floor q = ⌊q⌋ := rfl

theorem lookup_append_of_none {d₁ : Dir} {n : String} (d₂ : Dir) (h : lookup d₁ n = none) :
    lookup (d₁ ++ d₂) n = lookup d₂ n := by
  induction d₁ with
  | nil => rfl
  | cons e es ih =>
    by_cases he : e.1 = n
    · simp [lookup, he] at h
    · simp only [lookup, he, if_neg, List.cons_append] at h ⊢
      exact ih h

theorem lookup_append_of_some {d₁ : Dir} {n : String} {f : FileData} (d₂ : Dir)
    (h : lookup d₁ n = some f) : lookup (d₁ ++ d₂) n = some f := by
  induction d₁ with
  | nil => simp [lookup] at h
  | cons e es ih =>
    by_cases he : e.1 = n
    · simp only [lookup, he, if_pos] at h ⊢
      exact h
    · simp only [lookup, he, if_neg, List.cons_append] at h ⊢
      exact ih h

theorem lookup_removeEntry_ne {m n : String} (d : Dir) (h : m ≠ n) :
    lookup (removeEntry d n) m = lookup d m := by
  induction d with
  | nil => rfl
  | cons e es ih =>
    by_cases he : e.1 = n
    · rw [removeEntry, if_pos he, ih, lookup, if_neg (by rw [he]; exact fun hmn => h hmn.symm)]
    · rw [removeEntry, if_neg he]
      by_cases hm : e.1 = m
      · rw [lookup, if_pos hm, lookup, if_pos hm]
      · rw [lookup, if_neg hm, lookup, if_neg hm, ih]

theorem lookup_removeEntry_self (d : Dir) (n : String) :
    lookup (removeEntry d n) n = none := by
  induction d with
  | nil => rfl
  | cons e es ih =>
    by_cases he : e.1 = n
    · rw [removeEntry, if_pos he, ih]
    · rw [removeEntry, if_neg he, lookup, if_neg he, ih]

theorem lookup_writeEntry_self (d : Dir) (n : String) (f : FileData) :
    lookup (writeEntry d n f) n = some f := by
  rw [writeEntry, lookup_append_of_none _ (lookup_removeEntry_self d n), lookup, if_pos rfl]

theorem lookup_writeEntry_ne {m n : String} (d : Dir) (f : FileData) (h : m ≠ n) :
    lookup (writeEntry d n f) m = lookup d m := by
  rw [writeEntry]
  rcases hd : lookup (removeEntry d n) m with _ | g
  · rw [lookup_append_of_none _ hd, lookup, if_neg (fun hnm => h hnm.symm), lookup,
      ← lookup_removeEntry_ne d h, hd]
  · rw [lookup_append_of_some _ hd, ← lookup_removeEntry_ne d h, hd]

theorem lookup_isSome_writeEntry_of_isSome {d : Dir} {m : String} (n : String) (f : FileData)
    (h : (lookup d m).isSome = true) :
    (lookup (writeEntry d n f) m).isSome = true := by
  by_cases hmn : m = n
  · rw [hmn, lookup_writeEntry_self]; rfl
  · rw [lookup_writeEntry_ne d f hmn]; exact h

/-- With augment off, split_data is exactly the slicing of the shuffled listing:
there is no ratio validation and no error path at all. -/
theorem split_data_false_eq (tr : BoxTransform) (sh : List String → List String) (d : Dir)
    (r₁ r₂ r₃ : ℚ) :
    split_data tr sh d false r₁ r₂ r₃ =
      Except.ok (d,
        (sh (image_files d)).take (Rat.floor (((sh (image_files d)).length : ℚ) * r₁)).toNat,
        ((sh (image_files d)).drop
            (Rat.floor (((sh (image_files d)).length : ℚ) * r₁)).toNat).take
          (Rat.floor (((sh (image_files d)).length : ℚ) * r₂)).toNat,
        (sh (image_files d)).drop
          ((Rat.floor (((sh (image_files d)).length : ℚ) * r₁)).toNat +
            (Rat.floor (((sh (image_files d)).length : ℚ) * r₂)).toNat)) := rfl

/-- The floored train and val counts fit inside the pool when the two ratios are
nonnegative and sum to at most one. -/
theorem counts_le (N : ℕ) (r₁ r₂ : ℚ) (h₁ : 0 ≤ r₁) (h₂ : 0 ≤ r₂) (h : r₁ + r₂ ≤ 1) :
    (Rat.floor ((N : ℚ) * r₁)).toNat + (Rat.floor ((N : ℚ) * r₂)).toNat ≤ N := by
  rw [rat_floor_eq_intFloor, rat_floor_eq_intFloor]
  have hf₁ : (0 : ℤ) ≤ ⌊(N : ℚ) * r₁⌋ := Int.floor_nonneg.mpr (by positivity)
  have hf₂ : (0 : ℤ) ≤ ⌊(N : ℚ) * r₂⌋ := Int.floor_nonneg.mpr (by positivity)
  have hsum : ⌊(N : ℚ) * r₁⌋ + ⌊(N : ℚ) * r₂⌋ ≤ (N : ℤ) := by
    have hle : ⌊(N : ℚ) * r₁⌋ + ⌊(N : ℚ) * r₂⌋ ≤ ⌊(N : ℚ) * r₁ + (N : ℚ) * r₂⌋ := by
      apply Int.le_floor.mpr
      push_cast
      exact add_le_add (Int.floor_le _) (Int.floor_le _)
    refine hle.trans ?_
    have : (N : ℚ) * r₁ + (N : ℚ) * r₂ ≤ (N : ℚ) := by
      rw [← mul_add]
      calc (N : ℚ) * (r₁ + r₂) ≤ (N : ℚ) * 1 := by
            exact mul_le_mul_of_nonneg_left h (by positivity)
        _ = (N : ℚ) := mul_one _
    calc ⌊(N : ℚ) * r₁ + (N : ℚ) * r₂⌋ ≤ ⌊(N : ℚ)⌋ := Int.floor_le_floor this
      _ = (N : ℤ) := Int.floor_natCast N
  calc ⌊(N : ℚ) * r₁⌋.toNat + ⌊(N : ℚ) * r₂⌋.toNat
      = (⌊(N : ℚ) * r₁⌋ + ⌊(N : ℚ) * r₂⌋).toNat := (Int.toNat_add hf₁ hf₂).symm
    _ ≤ ((N : ℤ)).toNat := Int.toNat_le_toNat hsum
    _ = N := Int.toNat_natCast N

/-- C1: with augment off and valid ratios (both nonnegative, together at most
the whole), split_data partitions the shuffled .png listing: the train and val
lengths are the floored counts, the test length is the remainder, the lengths
sum to the pool size, the concatenation of the three lists is a permutation of
the .png listing, and the three lists are pairwise disjoint. -/
theorem c1_split_data_partition (tr : BoxTransform) (sh : List String → List String) (d : Dir)
    (r₁ r₂ r₃ : ℚ)
    (hnodup : (listdir d).Nodup)
    (hperm : (sh (image_files d)).Perm (image_files d))
    (h₁ : 0 ≤ r₁) (h₂ : 0 ≤ r₂) (h₁₂ : r₁ + r₂ ≤ 1) :
    ∃ t v te : List String,
      split_data tr sh d false r₁ r₂ r₃ = Except.ok (d, t, v, te) ∧
      t.length = (Rat.floor (((image_files d).length : ℚ) * r₁)).toNat ∧
      v.length = (Rat.floor (((image_files d).length : ℚ) * r₂)).toNat ∧
      te.length = (image_files d).length - t.length - v.length ∧
      t.length + v.length + te.length = (image_files d).length ∧
      (t ++ v ++ te).Perm (image_files d) ∧
      t.Nodup ∧ v.Nodup ∧ te.Nodup ∧
      t.Disjoint v ∧ t.Disjoint te ∧ v.Disjoint te := by
  classical
  set files := image_files d with hfiles
  set L := sh files with hL
  have hlen : L.length = files.length := hperm.length_eq
  set tc := (Rat.floor ((files.length : ℚ) * r₁)).toNat with htc
  set vc := (Rat.floor ((files.length : ℚ) * r₂)).toNat with hvc
  have hcounts : tc + vc ≤ files.length := counts_le files.length r₁ r₂ h₁ h₂ h₁₂
  have hlt : (L.take tc).length = tc := by
    rw [List.length_take, hlen, min_eq_left (le_trans (Nat.le_add_right tc vc) hcounts)]
  have hlv : ((L.drop tc).take vc).length = vc := by
    rw [List.length_take, List.length_drop, hlen,
      min_eq_left (Nat.le_sub_of_add_le (by rw [Nat.add_comm]; exact hcounts))]
  have hlte : (L.drop (tc + vc)).length = files.length - (tc + vc) := by
    rw [List.length_drop, hlen]
  refine ⟨L.take tc, (L.drop tc).take vc, L.drop (tc + vc), ?_, ?_, ?_, ?_, ?_, ?_, ?_⟩
  · rw [split_data_false_eq, ← hL, hlen, ← htc, ← hvc]
  · exact hlt
  · exact hlv
  · rw [hlt, hlv, hlte]; omega
  · rw [hlt, hlv, hlte]; omega
  · have happ : L.take tc ++ ((L.drop tc).take vc ++ L.drop (tc + vc)) = L := by
      have hdd : L.drop (tc + vc) = (L.drop tc).drop vc := by
        rw [List.drop_drop, Nat.add_comm]
      rw [hdd, List.take_append_drop, List.take_append_drop]
    rw [← List.append_assoc] at happ
    rw [happ]
    exact hperm
  · have hndL : L.Nodup := by
      rw [hperm.nodup_iff]
      exact hnodup.filter _
    have happ : L.take tc ++ ((L.drop tc).take vc ++ L.drop (tc + vc)) = L := by
      have hdd : L.drop (tc + vc) = (L.drop tc).drop vc := by
        rw [List.drop_drop, Nat.add_comm]
      rw [hdd, List.take_append_drop, List.take_append_drop]
    have hnd : (L.take tc ++ ((L.drop tc).take vc ++ L.drop (tc + vc))).Nodup := by
      rw [happ]; exact hndL
    rw [List.nodup_append] at hnd
    obtain ⟨hnd₁, hnd₂₃, hdis₁⟩ := hnd
    rw [List.nodup_append] at hnd₂₃
    obtain ⟨hnd₂, hnd₃, hdis₂₃⟩ := hnd₂₃
    rw [List.disjoint_append_right] at hdis₁
    exact ⟨hnd₁, hnd₂, hnd₃, hdis₁.1, hdis₁.2, hdis₂₃⟩

/-- C1 witness: the partition theorem applied to a concrete three-image pool
with ratios 4/5, 1/10, 1/10 and the identity shuffle. -/
theorem c1_split_data_partition_witness :
    ((listdir poolABC).Nodup ∧
      (id (image_files poolABC)).Perm (image_files poolABC) ∧
      (0 : ℚ) ≤ 4 / 5 ∧ (0 : ℚ) ≤ 1 / 10 ∧ (4 : ℚ) / 5 + 1 / 10 ≤ 1) ∧
    (∃ t v te : List String,
      split_data trNone id poolABC false (4 / 5) (1 / 10) (1 / 10) =
        Except.ok (poolABC, t, v, te) ∧
      t.length = (Rat.floor (((image_files poolABC).length : ℚ) * (4 / 5))).toNat ∧
      v.length = (Rat.floor (((image_files poolABC).length : ℚ) * (1 / 10))).toNat ∧
      te.length = (image_files poolABC).length - t.length - v.length ∧
      t.length + v.length + te.length = (image_files poolABC).length ∧
      (t ++ v ++ te).Perm (image_files poolABC) ∧
      t.Nodup ∧ v.Nodup ∧ te.Nodup ∧
      t.Disjoint v ∧ t.Disjoint te ∧ v.Disjoint te) :=
  ⟨⟨by decide, List.Perm.refl _, by norm_num, by norm_num, by norm_num⟩,
    c1_split_data_partition trNone id poolABC (4 / 5) (1 / 10) (1 / 10) (by decide)
      (List.Perm.refl _) (by norm_num) (by norm_num) (by norm_num)⟩

/-- C3 counterexample: ratios 1/2, 2/5, 3/10 sum to 6/5, not 1, yet split_data
returns a normal partition; no InvalidRatio failure exists in the code. -/
theorem c3_no_invalid_ratio_counterexample :
    ((1 : ℚ) / 2 + 2 / 5 + 3 / 10 ≠ 1) ∧
    split_data trNone id poolAB false (1 / 2) (2 / 5) (3 / 10) =
      Except.ok (poolAB, ["a.png"], [], ["b.png"]) := by
  constructor
  · norm_num
  · rw [split_data_false_eq]
    have h1 : image_files poolAB = ["a.png", "b.png"] := by decide
    rw [h1]
    norm_num [rat_floor_eq_intFloor]

theorem except_bind_ok {α β : Type} (a : α) (f : α → Except Err β) :
    (Except.ok a >>= f) = f a := rfl

theorem lookup_removeEntry_none {d : Dir} {m : String} (n : String) (h : lookup d m = none) :
    lookup (removeEntry d n) m = none := by
  by_cases hmn : m = n
  · rw [hmn]; exact lookup_removeEntry_self d n
  · rw [lookup_removeEntry_ne d hmn]; exact h

/-- If any listed name is absent from the pool, the relocation fold aborts with
the FileNotFoundError of shutil.move: earlier iterations only ever remove pool
entries, so the absence persists until the name is reached. -/
theorem moveFold_missing : ∀ (files : List String) (c ti tl : Dir),
    (∃ f ∈ files, lookup c f = none) →
    files.foldlM moveStep (c, ti, tl) = Except.error Err.srcMissing := by
  intro files
  induction files with
  | nil =>
    intro c ti tl h
    obtain ⟨f, hf, _⟩ := h
    exact absurd hf (List.not_mem_nil f)
  | cons g gs ih =>
    intro c ti tl h
    obtain ⟨f, hf, hnone⟩ := h
    rw [List.foldlM_cons]
    rcases hg : lookup c g with _ | fd
    · simp only [moveStep, hg]
      rfl
    · have hfg : f ≠ g := by
        intro he
        rw [he, hg] at hnone
        cases hnone
      have hf' : f ∈ gs := by
        rcases List.mem_cons.mp hf with h | h
        · exact absurd h hfg
        · exact h
      rcases hl : lookup (removeEntry c g) (strReplace g ".png" ".txt") with _ | lf
      · simp only [moveStep, hg, hl]
        rw [except_bind_ok]
        exact ih _ _ _ ⟨f, hf', lookup_removeEntry_none g hnone⟩
      · simp only [moveStep, hg, hl]
        rw [except_bind_ok]
        exact ih _ _ _ ⟨f, hf', lookup_removeEntry_none _ (lookup_removeEntry_none g hnone)⟩

/-- Invariants of a successful relocation fold: the images area is unchanged at
names not in the batch, the labels area is unchanged at names that are not the
label name of any batch member, files already present in the images area stay
present, and every batch member ends up present in the images area. -/
theorem moveFold_ok : ∀ (files : List String) (c ti tl c' ti' tl' : Dir),
    files.foldlM moveStep (c, ti, tl) = Except.ok (c', ti', tl') →
    (∀ n, n ∉ files → lookup ti' n = lookup ti n) ∧
    (∀ n, (∀ f ∈ files, n ≠ strReplace f ".png" ".txt") → lookup tl' n = lookup tl n) ∧
    (∀ n, (lookup ti n).isSome = true → (lookup ti' n).isSome = true) ∧
    (∀ f ∈ files, (lookup ti' f).isSome = true) := by
  intro files
  induction files with
  | nil =>
    intro c ti tl c' ti' tl' h
    simp only [List.foldlM_nil, pure, Except.pure, Except.ok.injEq, Prod.mk.injEq] at h
    obtain ⟨-, h2, h3⟩ := h
    subst h2; subst h3
    exact ⟨fun n _ => rfl, fun n _ => rfl, fun n hs => hs,
      fun f hf => absurd hf (List.not_mem_nil f)⟩
  | cons g gs ih =>
    intro c ti tl c' ti' tl' h
    rw [List.foldlM_cons] at h
    rcases hg : lookup c g with _ | fd
    · simp only [moveStep, hg] at h
      exact Except.noConfusion h
    · have main : ∀ tl₁ : Dir,
          gs.foldlM moveStep
              (removeEntry (removeEntry c g) (strReplace g ".png" ".txt"),
                writeEntry ti g fd, tl₁) = Except.ok (c', ti', tl') ∨
            gs.foldlM moveStep
              (removeEntry c g, writeEntry ti g fd, tl₁) = Except.ok (c', ti', tl') →
          (∀ n, n ∉ g :: gs → lookup ti' n = lookup ti n) ∧
          (∀ n, (lookup (writeEntry ti g fd) n).isSome = true →
            (lookup ti' n).isSome = true) ∧
          (∀ f ∈ g :: gs, (lookup ti' f).isSome = true) := by
        intro tl₁ hfold
        have hrest :
            (∀ n, n ∉ gs → lookup ti' n = lookup (writeEntry ti g fd) n) ∧
            (∀ n, (lookup (writeEntry ti g fd) n).isSome = true →
              (lookup ti' n).isSome = true) ∧
            (∀ f ∈ gs, (lookup ti' f).isSome = true) := by
          rcases hfold with hfold | hfold
          · obtain ⟨h1, _, h3, h4⟩ := ih _ _ _ _ _ _ hfold
            exact ⟨h1, h3, h4⟩
          · obtain ⟨h1, _, h3, h4⟩ := ih _ _ _ _ _ _ hfold
            exact ⟨h1, h3, h4⟩
        obtain ⟨h1, h3, h4⟩ := hrest
        refine ⟨?_, h3, ?_⟩
        · intro n hn
          have hng : n ≠ g := fun he => hn (he ▸ List.mem_cons_self g gs)
          have hngs : n ∉ gs := fun he => hn (List.mem_cons_of_mem g he)
          rw [h1 n hngs, lookup_writeEntry_ne ti fd hng]
        · intro f hf
          rcases List.mem_cons.mp hf with he | he
          · subst he
            apply h3
            rw [lookup_writeEntry_self]
            rfl
          · exact h4 f he
      rcases hl : lookup (removeEntry c g) (strReplace g ".png" ".txt") with _ | lf
      · simp only [moveStep, hg, hl] at h
        rw [except_bind_ok] at h
        obtain ⟨hm1, hm2, hm3⟩ := main tl (Or.inr h)
        obtain ⟨k1, k2, _, _⟩ := ih _ _ _ _ _ _ h
        refine ⟨hm1, ?_, fun n hs => hm2 n (lookup_isSome_writeEntry_of_isSome g fd hs), hm3⟩
        intro n hall
        exact k2 n (fun f hf => hall f (List.mem_cons_of_mem g hf))
      · simp only [moveStep, hg, hl] at h
        rw [except_bind_ok] at h
        obtain ⟨hm1, hm2, hm3⟩ := main _ (Or.inl h)
        obtain ⟨k1, k2, _, _⟩ := ih _ _ _ _ _ _ h
        refine ⟨hm1, ?_, fun n hs => hm2 n (lookup_isSome_writeEntry_of_isSome g fd hs), hm3⟩
        intro n hall
        have hng : n ≠ strReplace g ".png" ".txt" := hall g (List.mem_cons_self g gs)
        rw [k2 n (fun f hf => hall f (List.mem_cons_of_mem g hf)),
          lookup_writeEntry_ne tl lf hng]

/-- C4: a successful relocation leaves every destination image whose name is
not in the batch unchanged, leaves every destination label whose name is not
the label name of a batch member unchanged, and ends with every batch member
present in the destination images area. -/
theorem c4_move_files_frame (files : List String) (c ti tl c' ti' tl' : Dir)
    (h : move_files files c ti tl = Except.ok (c', ti', tl')) :
    (∀ n, n ∉ files → lookup ti' n = lookup ti n) ∧
    (∀ n, (∀ f ∈ files, n ≠ strReplace f ".png" ".txt") → lookup tl' n = lookup tl n) ∧
    (∀ f ∈ files, (lookup ti' f).isSome = true) := by
  obtain ⟨h1, h2, _, h4⟩ := moveFold_ok files c ti tl c' ti' tl' h
  exact ⟨h1, h2, h4⟩

/-- C4 witness: relocating a and b into a destination already holding the
unrelated c leaves c untouched and the destination holds a, b and c. -/
theorem c4_move_files_frame_witness :
    (move_files ["a.png", "b.png"] moveSrcDir destImagesC [] =
      Except.ok ([],
        [("c.png", .image (.file 9)), ("a.png", .image (.file 0)),
          ("b.png", .image (.file 1))],
        [("a.txt", .text [["0", "0.5", "0.5", "0.5", "0.5"]])])) ∧
    ((∀ n, n ∉ ["a.png", "b.png"] →
        lookup [("c.png", .image (.file 9)), ("a.png", .image (.file 0)),
          ("b.png", .image (.file 1))] n = lookup destImagesC n) ∧
      (∀ n, (∀ f ∈ ["a.png", "b.png"], n ≠ strReplace f ".png" ".txt") →
        lookup [("a.txt", .text [["0", "0.5", "0.5", "0.5", "0.5"]])] n = lookup [] n) ∧
      (∀ f ∈ ["a.png", "b.png"],
        (lookup [("c.png", .image (.file 9)), ("a.png", .image (.file 0)),
          ("b.png", .image (.file 1))] f).isSome = true)) :=
  ⟨by decide,
    c4_move_files_frame ["a.png", "b.png"] moveSrcDir destImagesC [] []
      [("c.png", .image (.file 9)), ("a.png", .image (.file 0)), ("b.png", .image (.file 1))]
      [("a.txt", .text [["0", "0.5", "0.5", "0.5", "0.5"]])] (by decide)⟩

/-- C8 counterexample: asking a second time to relocate a name whose image was
already moved away does not warn and continue, it crashes the whole call: with
a.png absent, move_files on the batch a, b fails and b is not relocated. -/
theorem c8_missing_image_counterexample :
    move_files ["a.png", "b.png"] srcOnlyB [] [] = Except.error Err.srcMissing := by decide

/-- C8 amended: if any name in the batch has no image file in the source pool,
move_files raises the FileNotFoundError of shutil.move and aborts, so the
remaining names are not relocated; only a missing label file gets the
warning-and-continue treatment. -/
theorem c8_missing_image_aborts (files : List String) (c ti tl : Dir)
    (h : ∃ f ∈ files, lookup c f = none) :
    move_files files c ti tl = Except.error Err.srcMissing :=
  moveFold_missing files c ti tl h

/-- C8 witness: the abort theorem applied to the concrete already-moved pool. -/
theorem c8_missing_image_aborts_witness :
    (∃ f ∈ ["a.png", "b.png"], lookup srcOnlyB f = none) ∧
    move_files ["a.png", "b.png"] srcOnlyB [] [] = Except.error Err.srcMissing :=
  ⟨⟨"a.png", by decide, by decide⟩,
    c8_missing_image_aborts ["a.png", "b.png"] srcOnlyB [] []
      ⟨"a.png", by decide, by decide⟩⟩

/-- C3 amended: split_data performs no ratio validation at all.  For every
ratio triple whatsoever (augmentation off, so that no file-processing error can
occur either) it returns the sliced lists normally; in particular it never
fails with the InvalidRatio error the specification describes. -/
theorem c3_split_data_accepts_any_ratios (tr : BoxTransform) (sh : List String → List String)
    (d : Dir) (r₁ r₂ r₃ : ℚ) :
    ∃ t v te : List String,
      split_data tr sh d false r₁ r₂ r₃ = Except.ok (d, t, v, te) := by
  exact ⟨_, _, _, split_data_false_eq tr sh d r₁ r₂ r₃⟩

/-- C2: the code zips the transformed boxes, from which albumentations already
removed the out-of-frame box, against the untouched class_labels list of all
three input classes.  For the three-box sample whose middle box leaves the
frame, the written annotation pairs the surviving transforms of boxes 0 and 2
with classes 0 and 1: the association shifts, and the geometry of input box 2
is written under class 1 while class 2 disappears, instead of the classes 0 and
2 the specification requires. -/
theorem c2_class_association_shifts :
    rotate_image_and_labels trDropMiddle dirThreeBoxes =
      Except.ok
        [("s.png", .image (.file 0)),
         ("s.txt", .text [["0", "0.25", "0.25", "0.1", "0.1"],
                          ["1", "0.5", "0.5", "0.1", "0.1"],
                          ["2", "0.75", "0.75", "0.1", "0.1"]]),
         ("s-rotated.png", .image (.rotated (.file 0))),
         ("s-rotated.txt", .text [["0", "0.5", "0.5", "0.5", "0.5"],
                                  ["1", "0.25", "0.25", "0.25", "0.25"]])] := by decide

/-- A rotation step whose label file parses to an error aborts with that error. -/
theorem rotStep_parse_error (tr : BoxTransform) (st : RotSt) (filename : String)
    (px : ImgData) (L : List (List String)) (e : Err)
    (h2 : strEndsWith (strLower filename) ".png" = true)
    (h1 : lookup st.dir filename = some (.image px))
    (h3 : lookup st.dir (strReplace filename ".png" ".txt") = some (.text L))
    (h4 : parseLines L = Except.error e) :
    rotStep tr st filename = Except.error e := by
  rw [rotStep, h2, if_pos rfl, h1, h3]
  simp only [h4]

/-- The rotation batch aborts with the error of its first listed file's step. -/
theorem rotate_error_of_first_step (tr : BoxTransform) (d : Dir) (n : String)
    (ns : List String) (e : Err)
    (hn : listdir d = n :: ns)
    (h : rotStep tr ⟨d, none⟩ n = Except.error e) :
    rotate_image_and_labels tr d = Except.error e := by
  rw [rotate_image_and_labels, hn, List.foldlM_cons, h]
  rfl

/-- C6 counterexample: a pool whose first sample has a malformed annotation
line (one field instead of five).  The ValueError is uncaught: the whole batch
aborts, and in particular the well-formed second sample is never processed,
instead of the offending file being skipped with a warning. -/
theorem c6_malformed_annotation_counterexample :
    rotate_image_and_labels trNone dirMalformed = Except.error Err.malformedLine := by decide

/-- C6 amended: a label line with other than five whitespace-separated fields
or with a non-numeric field raises an uncaught ValueError that aborts the
entire rotation batch, whatever else the pool contains; there is no per-file
skip and no warning for malformed annotations. -/
theorem c6_malformed_annotation_aborts (tr : BoxTransform) (px : ImgData)
    (L : List (List String)) (rest : Dir) (e : Err)
    (hbad : parseLines L = Except.error e) :
    rotate_image_and_labels tr (("a.png", .image px) :: ("a.txt", .text L) :: rest) =
      Except.error e := by
  exact rotate_error_of_first_step tr
    (("a.png", .image px) :: ("a.txt", .text L) :: rest) "a.png" ("a.txt" :: listdir rest) e rfl
    (rotStep_parse_error tr ⟨("a.png", .image px) :: ("a.txt", .text L) :: rest, none⟩
      "a.png" px L e rfl rfl rfl hbad)

/-- C6 witness: the abort theorem applied to a concrete malformed line. -/
theorem c6_malformed_annotation_aborts_witness :
    (parseLines [["garbage"]] = Except.error Err.malformedLine) ∧
    rotate_image_and_labels trNone
        (("a.png", .image (.file 0)) :: ("a.txt", .text [["garbage"]]) :: []) =
      Except.error Err.malformedLine :=
  ⟨by decide,
    c6_malformed_annotation_aborts trNone (.file 0) [["garbage"]] [] Err.malformedLine
      (by decide)⟩

/-- C7: an image whose annotation file is missing is not always skipped with a
warning.  When it is the first listed image, the warning branch runs but the
progress print then reads new_image_filename, which no iteration has assigned:
the loop dies with UnboundLocalError and the whole batch aborts, for any
transform, any image data and any further pool contents reached only through
later iterations. -/
theorem c7_unlabeled_first_image_crashes (tr : BoxTransform) (px : ImgData) :
    rotate_image_and_labels tr [("a.png", .image px)] = Except.error Err.unboundLocal := rfl

theorem digVal_digitChar {d : ℕ} (h : d < 10) : digVal (digitChar d) = some d := by
  interval_cases d <;> decide

theorem digitChar_bne_dot {d : ℕ} (h : d < 10) : (digitChar d != '.') = true := by
  interval_cases d <;> decide

theorem digitChar_ne_minus {d : ℕ} (h : d < 10) : digitChar d ≠ '-' := by
  interval_cases d <;> decide

theorem parseNatAux_append (acc : ℕ) (l₁ l₂ : List Char) :
    parseNatAux acc (l₁ ++ l₂) =
      match parseNatAux acc l₁ with
      | some a => parseNatAux a l₂
      | none => none := by
  induction l₁ generalizing acc with
  | nil => rfl
  | cons c cs ih =>
    rcases hc : digVal c with _ | d
    · simp only [List.cons_append, parseNatAux, hc]
    · simp only [List.cons_append, parseNatAux, hc]
      exact ih (acc * 10 + d)

theorem parseNatAux_digits (L : List ℕ) (hL : ∀ d ∈ L, d < 10) (acc : ℕ) :
    parseNatAux acc (L.reverse.map digitChar) =
      some (acc * 10 ^ L.length + Nat.ofDigits 10 L) := by
  induction L generalizing acc with
  | nil => simp [parseNatAux, Nat.ofDigits_nil]
  | cons d L ih =>
    have hd : d < 10 := hL d (List.mem_cons_self d L)
    have hL' : ∀ x ∈ L, x < 10 := fun x hx => hL x (List.mem_cons_of_mem d hx)
    rw [List.reverse_cons, List.map_append, parseNatAux_append, ih hL' acc]
    simp only [List.map_cons, List.map_nil, parseNatAux, digVal_digitChar hd]
    congr 1
    rw [Nat.ofDigits_cons, List.length_cons]
    ring

theorem natDigitsAux_eq : ∀ (n fuel : ℕ), n ≤ fuel →
    natDigitsAux fuel n = (Nat.digits 10 n).map digitChar := by
  intro n
  induction n using Nat.strong_induction_on with
  | _ n ih =>
    intro fuel hle
    rcases n with _ | m
    · rw [Nat.digits_zero, List.map_nil]
      cases fuel
      · rfl
      · rfl
    · rcases fuel with _ | f
      · omega
      · have hdiv : (m + 1) / 10 < m + 1 := Nat.div_lt_self (Nat.succ_pos m) (by norm_num)
        rw [natDigitsAux, Nat.digits_def' (b := 10) (by norm_num) (Nat.succ_pos m),
          List.map_cons]
        congr 1
        exact ih ((m + 1) / 10) hdiv f (by omega)

theorem natRepr_eq {n : ℕ} (h : n ≠ 0) :
    natRepr n = ((Nat.digits 10 n).map digitChar).reverse := by
  rw [natRepr, if_neg h, natDigitsAux_eq n n le_rfl]

theorem natRepr_mem {n : ℕ} {c : Char} (hc : c ∈ natRepr n) : ∃ d < 10, c = digitChar d := by
  by_cases h : n = 0
  · subst h
    rw [natRepr, if_pos rfl, List.mem_singleton] at hc
    exact ⟨0, by norm_num, by rw [hc]; rfl⟩
  · rw [natRepr_eq h, List.mem_reverse, List.mem_map] at hc
    obtain ⟨d, hd, hcd⟩ := hc
    exact ⟨d, Nat.digits_lt_base (by norm_num) hd, hcd.symm⟩

theorem natRepr_ne_nil (n : ℕ) : natRepr n ≠ [] := by
  by_cases h : n = 0
  · subst h; decide
  · rw [natRepr_eq h]
    intro hc
    rw [List.reverse_eq_nil_iff, List.map_eq_nil_iff] at hc
    exact Nat.digits_ne_nil_iff_ne_zero.mpr h hc

theorem parseNatChars_natRepr (n : ℕ) : parseNatChars (natRepr n) = some n := by
  by_cases h : n = 0
  · subst h; decide
  · obtain ⟨c, cs, hcc⟩ := List.exists_cons_of_ne_nil (natRepr_ne_nil n)
    rw [hcc, parseNatChars, ← hcc, natRepr_eq h, ← List.map_reverse,
      parseNatAux_digits (Nat.digits 10 n)
        (fun d hd => Nat.digits_lt_base (by norm_num) hd) 0]
    rw [Nat.zero_mul, Nat.zero_add, Nat.ofDigits_digits]

theorem parseNatAux_replicate_zero (z : ℕ) (l : List Char) :
    parseNatAux 0 (List.replicate z '0' ++ l) = parseNatAux 0 l := by
  induction z with
  | zero => rfl
  | succ z ih =>
    rw [List.replicate_succ, List.cons_append, parseNatAux]
    have : digVal '0' = some 0 := by decide
    rw [this]
    exact ih

theorem parseNatChars_replicate_zero (z : ℕ) {l : List Char} (hl : l ≠ []) :
    parseNatChars (List.replicate z '0' ++ l) = parseNatAux 0 l := by
  obtain ⟨c, cs, hcc⟩ := List.exists_cons_of_ne_nil hl
  cases z with
  | zero => rw [List.replicate, List.nil_append, hcc, parseNatChars, ← hcc]
  | succ z =>
    rw [List.replicate_succ, List.cons_append, parseNatChars, ← List.cons_append,
      ← List.replicate_succ]
    exact parseNatAux_replicate_zero (z + 1) l

theorem parseNatAux_natRepr (n : ℕ) : parseNatAux 0 (natRepr n) = some n := by
  obtain ⟨c, cs, hcc⟩ := List.exists_cons_of_ne_nil (natRepr_ne_nil n)
  have h := parseNatChars_natRepr n
  rw [hcc, parseNatChars] at h
  rw [hcc]
  exact h

theorem takeWhile_eq_self_of_all {p : Char → Bool} : ∀ {l : List Char},
    (∀ c ∈ l, p c = true) → l.takeWhile p = l := by
  intro l
  induction l with
  | nil => intro _; rfl
  | cons c cs ih =>
    intro h
    rw [List.takeWhile_cons, h c (List.mem_cons_self c cs)]
    rw [ih (fun x hx => h x (List.mem_cons_of_mem c hx))]
    exact if_pos rfl

theorem dropWhile_eq_nil_of_all {p : Char → Bool} : ∀ {l : List Char},
    (∀ c ∈ l, p c = true) → l.dropWhile p = [] := by
  intro l
  induction l with
  | nil => intro _; rfl
  | cons c cs ih =>
    intro h
    rw [List.dropWhile_cons, h c (List.mem_cons_self c cs)]
    simp only [if_true]
    exact ih (fun x hx => h x (List.mem_cons_of_mem c hx))

theorem takeWhile_append_stop (p : Char → Bool) {c₀ : Char} (hc : p c₀ = false) :
    ∀ {l₁ l₂ : List Char}, (∀ c ∈ l₁, p c = true) →
    (l₁ ++ c₀ :: l₂).takeWhile p = l₁ := by
  intro l₁
  induction l₁ with
  | nil =>
    intro l₂ _
    rw [List.nil_append, List.takeWhile_cons, hc]
    rfl
  | cons c cs ih =>
    intro l₂ h
    rw [List.cons_append, List.takeWhile_cons, h c (List.mem_cons_self c cs)]
    rw [ih (fun x hx => h x (List.mem_cons_of_mem c hx))]
    exact if_pos rfl

theorem dropWhile_append_stop (p : Char → Bool) {c₀ : Char} (hc : p c₀ = false) :
    ∀ {l₁ l₂ : List Char}, (∀ c ∈ l₁, p c = true) →
    (l₁ ++ c₀ :: l₂).dropWhile p = c₀ :: l₂ := by
  intro l₁
  induction l₁ with
  | nil =>
    intro l₂ _
    rw [List.nil_append, List.dropWhile_cons, hc]
    rfl
  | cons c cs ih =>
    intro l₂ h
    rw [List.cons_append, List.dropWhile_cons, h c (List.mem_cons_self c cs)]
    simp only [if_true]
    exact ih (fun x hx => h x (List.mem_cons_of_mem c hx))

theorem natRepr_length_le {m k : ℕ} (hk : 1 ≤ k) (hm : m < 10 ^ k) :
    (natRepr m).length ≤ k := by
  by_cases h : m = 0
  · subst h
    rw [natRepr, if_pos rfl]
    simpa using hk
  · rw [natRepr_eq h, List.length_reverse, List.length_map,
      Nat.digits_len 10 m (by norm_num) h]
    have := Nat.log_lt_of_lt_pow h hm
    omega

theorem natRepr_all_not_dot (n : ℕ) : ∀ c ∈ natRepr n, (c != '.') = true := by
  intro c hc
  obtain ⟨d, hd, hcd⟩ := natRepr_mem hc
  rw [hcd]
  exact digitChar_bne_dot hd

theorem parseUnsigned_natRepr (n : ℕ) : parseUnsignedChars (natRepr n) = some ((n : ℚ)) := by
  rw [parseUnsignedChars]
  simp only [takeWhile_eq_self_of_all (natRepr_all_not_dot n),
    dropWhile_eq_nil_of_all (natRepr_all_not_dot n)]
  rw [parseNatChars_natRepr]
  rfl

theorem cast_natAbs_of_neg {n : ℤ} (h : n < 0) : ((n.natAbs : ℚ)) = -(n : ℚ) := by
  rw [Int.cast_natAbs, abs_of_neg h]
  push_cast
  ring

theorem cast_natAbs_of_nonneg {n : ℤ} (h : 0 ≤ n) : ((n.natAbs : ℚ)) = (n : ℚ) := by
  rw [Int.cast_natAbs, abs_of_nonneg h]

theorem parseFloat_intRepr (n : ℤ) : parseFloatChars (intRepr n) = some ((n : ℚ)) := by
  by_cases h : n < 0
  · rw [intRepr, if_pos h, parseFloatChars, if_pos rfl, parseUnsigned_natRepr]
    rw [Option.map_some']
    congr 1
    rw [cast_natAbs_of_neg h, neg_neg]
  · rw [intRepr, if_neg h]
    obtain ⟨c, cs, hcc⟩ := List.exists_cons_of_ne_nil (natRepr_ne_nil n.natAbs)
    obtain ⟨d, hd, hcd⟩ := natRepr_mem (hcc ▸ List.mem_cons_self c cs)
    rw [hcc, parseFloatChars, if_neg (by rw [hcd]; exact digitChar_ne_minus hd), ← hcc,
      parseUnsigned_natRepr]
    congr 1
    exact cast_natAbs_of_nonneg (not_lt.mp h)

theorem parseUnsigned_core (a : ℕ) (k : ℕ) (hk : k ≠ 0) :
    parseUnsignedChars
        (natRepr (a / 10 ^ k) ++ '.' ::
          (List.replicate (k - (natRepr (a % 10 ^ k)).length) '0' ++ natRepr (a % 10 ^ k))) =
      some (((a : ℚ)) / 10 ^ k) := by
  have hdot : ((fun c => c != '.') ('.' : Char)) = false := by decide
  rw [parseUnsignedChars]
  simp only [takeWhile_append_stop (fun c => c != '.') hdot
      (natRepr_all_not_dot (a / 10 ^ k)),
    dropWhile_append_stop (fun c => c != '.') hdot (natRepr_all_not_dot (a / 10 ^ k))]
  have hlen : (List.replicate (k - (natRepr (a % 10 ^ k)).length) '0' ++
      natRepr (a % 10 ^ k)).length = k := by
    rw [List.length_append, List.length_replicate]
    have hle : (natRepr (a % 10 ^ k)).length ≤ k :=
      natRepr_length_le (Nat.one_le_iff_ne_zero.mpr hk)
        (Nat.mod_lt a (pow_pos (by norm_num) k))
    omega
  simp only [parseNatChars_natRepr,
    parseNatChars_replicate_zero _ (natRepr_ne_nil (a % 10 ^ k)), parseNatAux_natRepr]
  rw [hlen]
  have heq : ((a / 10 ^ k : ℕ) : ℤ) * 10 ^ k + ((a % 10 ^ k : ℕ) : ℤ) = (a : ℤ) := by
    have h0 : a / 10 ^ k * 10 ^ k + a % 10 ^ k = a := Nat.div_add_mod' a (10 ^ k)
    exact_mod_cast congrArg (Nat.cast (R := ℤ)) h0
  rw [heq, Rat.mkRat_eq_div]
  congr 1
  push_cast
  ring

theorem parseFloat_renderFixed (n : ℤ) (k : ℕ) :
    parseFloatChars (renderFixed n k) = some ((n : ℚ) / 10 ^ k) := by
  by_cases hk : k = 0
  · subst hk
    rw [renderFixed, if_pos rfl, parseFloat_intRepr]
    norm_num
  · rw [renderFixed, if_neg hk]
    simp only []
    by_cases h : n < 0
    · rw [if_pos h, parseFloatChars, if_pos rfl, parseUnsigned_core n.natAbs k hk]
      rw [Option.map_some']
      congr 1
      rw [cast_natAbs_of_neg h]
      ring
    · rw [if_neg h]
      obtain ⟨c, cs, hcc⟩ := List.exists_cons_of_ne_nil (natRepr_ne_nil (n.natAbs / 10 ^ k))
      obtain ⟨d, hd, hcd⟩ := natRepr_mem (hcc ▸ List.mem_cons_self c cs)
      rw [hcc, List.cons_append, parseFloatChars,
        if_neg (by rw [hcd]; exact digitChar_ne_minus hd), ← List.cons_append, ← hcc,
        parseUnsigned_core n.natAbs k hk]
      congr 1
      rw [cast_natAbs_of_nonneg (not_lt.mp h)]

theorem parseFloat_renderFP (f : FP) : parseFloatChars (renderFP f) = some f.val := by
  rw [renderFP, parseFloat_renderFixed, FP.val]
  congr 1
  push_cast
  rw [show ((10 : ℚ)) = 2 * 5 by norm_num, mul_pow]
  have h2 : ((2 : ℚ)) ^ f.e ≠ 0 := pow_ne_zero _ (by norm_num)
  have h5 : ((5 : ℚ)) ^ f.e ≠ 0 := pow_ne_zero _ (by norm_num)
  field_simp
  ring

theorem string_mk_data (l : List Char) : (String.mk l).data = l := rfl

theorem ratTrunc_of_den_one {q : ℚ} (h : q.den = 1) : ratTrunc q = q.num := by
  rw [ratTrunc, h, Nat.cast_one, Int.tdiv_one]

theorem rat_eq_num_of_den_one {q : ℚ} (h : q.den = 1) : ((q.num : ℤ) : ℚ) = q := by
  conv_rhs => rw [← Rat.num_div_den q]
  rw [h]
  norm_num

theorem parseLine_writeBoxLine (cls : ℚ) (b : YBox) (h : cls.den = 1) :
    parseLine (writeBoxLine cls b) =
      Except.ok (cls, (b.x.val, b.y.val, b.w.val, b.h.val)) := by
  simp only [writeBoxLine, parseLine, string_mk_data, parseFloat_intRepr, parseFloat_renderFP]
  rw [ratTrunc_of_den_one h, rat_eq_num_of_den_one h]

theorem serializeBoxes_cons (p : YBox × ℚ) (ps : List (YBox × ℚ)) :
    serializeBoxes (p :: ps) = writeBoxLine p.2 p.1 :: serializeBoxes ps := rfl

theorem parseLines_serializeBoxes (pairs : List (YBox × ℚ))
    (h : ∀ p ∈ pairs, (p.2).den = 1) :
    parseLines (serializeBoxes pairs) =
      Except.ok (pairs.map
        (fun p => (p.2, (p.1.x.val, p.1.y.val, p.1.w.val, p.1.h.val)))) := by
  induction pairs with
  | nil => rfl
  | cons p ps ih =>
    have hp := h p (List.mem_cons_self p ps)
    have hps := fun q hq => h q (List.mem_cons_of_mem p hq)
    rw [serializeBoxes_cons]
    simp only [parseLines, parseLine_writeBoxLine p.2 p.1 hp, ih hps, List.map_cons]

/-- C5: round trip of the annotation codec.  Serializing any box list with
integer class values (as every class id is) through the line-122 writer and
re-parsing it with the line-105 reader yields a list of the same length, in the
same order, whose every field differs from the original by at most the
tolerance 1e-6; the parse in fact reproduces every field exactly. -/
theorem c5_annotation_round_trip (pairs : List (YBox × ℚ))
    (hcls : ∀ p ∈ pairs, (p.2).den = 1) :
    ∃ parsed : List (ℚ × Box4),
      parseLines (serializeBoxes pairs) = Except.ok parsed ∧
      parsed.length = pairs.length ∧
      List.Forall₂ (fun (p : YBox × ℚ) (q : ℚ × Box4) =>
        |q.1 - p.2| ≤ 1 / 1000000 ∧ |q.2.1 - p.1.x.val| ≤ 1 / 1000000 ∧
        |q.2.2.1 - p.1.y.val| ≤ 1 / 1000000 ∧ |q.2.2.2.1 - p.1.w.val| ≤ 1 / 1000000 ∧
        |q.2.2.2.2 - p.1.h.val| ≤ 1 / 1000000) pairs parsed := by
  refine ⟨_, parseLines_serializeBoxes pairs hcls, ?_, ?_⟩
  · rw [List.length_map]
  · rw [List.forall₂_map_right_iff, List.forall₂_same]
    intro p _
    refine ⟨?_, ?_, ?_, ?_, ?_⟩ <;> rw [sub_self, abs_zero] <;> norm_num

/-- C5 witness: the round-trip theorem applied to a concrete one-box list. -/
theorem c5_annotation_round_trip_witness :
    (∀ p ∈ sampleBoxPairs, (p.2).den = 1) ∧
    (∃ parsed : List (ℚ × Box4),
      parseLines (serializeBoxes sampleBoxPairs) = Except.ok parsed ∧
      parsed.length = sampleBoxPairs.length ∧
      List.Forall₂ (fun (p : YBox × ℚ) (q : ℚ × Box4) =>
        |q.1 - p.2| ≤ 1 / 1000000 ∧ |q.2.1 - p.1.x.val| ≤ 1 / 1000000 ∧
        |q.2.2.1 - p.1.y.val| ≤ 1 / 1000000 ∧ |q.2.2.2.1 - p.1.w.val| ≤ 1 / 1000000 ∧
        |q.2.2.2.2 - p.1.h.val| ≤ 1 / 1000000) sampleBoxPairs parsed) :=
  ⟨by decide, c5_annotation_round_trip sampleBoxPairs (by decide)⟩

/-- C10 counterexample: an uppercase-extension image X.PNG is indeed selected
case-insensitively by both augmenters, and the blur pass does process it; but
the rotation pass does not rotate it.  The case-sensitive replace of .png by
.txt leaves X.PNG unchanged, so rotation opens the image file itself as its
annotation and dies on the decode error: no rotated derivative is ever
produced, contradicting the claim that the image is blurred and rotated. -/
theorem c10_uppercase_counterexample :
    blur_images dirUpper = Except.ok dirUpperBlurred ∧
    rotate_image_and_labels trNone dirUpperBlurred = Except.error Err.decodeFail := by
  constructor
  · decide
  · decide

/-- C10 amended: the partitioner's test is case-sensitive while the augmenters
select case-insensitively, so an uppercase-extension image is blurred (keeping
its uppercase extension) yet excluded from all three partition lists and never
relocated, remaining in the pool; the rotation pass, however, crashes on such
an image instead of rotating it, because its case-sensitive .png to .txt
substitution leaves the name unchanged and the image file itself is then read
as the annotation. -/
theorem c10_case_sensitivity_mismatch (px : ImgData) (tr : BoxTransform) :
    strEndsWith (strLower "X.PNG") ".png" = true ∧
    strEndsWith "X.PNG" ".png" = false ∧
    blur_images [("X.PNG", .image px)] =
      Except.ok [("X.PNG", .image px), ("X-blurry.PNG", .image (.blurred px))] ∧
    rotate_image_and_labels tr
        [("X.PNG", .image px), ("X-blurry.PNG", .image (.blurred px))] =
      Except.error Err.decodeFail ∧
    image_files [("X.PNG", .image px), ("X-blurry.PNG", .image (.blurred px))] = [] ∧
    (∀ r₁ r₂ r₃ : ℚ,
      split_data tr id [("X.PNG", .image px), ("X-blurry.PNG", .image (.blurred px))]
          false r₁ r₂ r₃ =
        Except.ok ([("X.PNG", .image px), ("X-blurry.PNG", .image (.blurred px))],
          [], [], [])) ∧
    (∀ ti tl : Dir,
      move_files [] [("X.PNG", .image px), ("X-blurry.PNG", .image (.blurred px))] ti tl =
        Except.ok ([("X.PNG", .image px), ("X-blurry.PNG", .image (.blurred px))], ti, tl)) := by
  refine ⟨by decide, by decide, rfl, rfl, rfl, ?_, fun ti tl => rfl⟩
  intro r₁ r₂ r₃
  rw [split_data_false_eq]
  have h0 : image_files [("X.PNG", .image px), ("X-blurry.PNG", .image (.blurred px))] =
      [] := rfl
  rw [h0]
  simp only [id_eq, List.take_nil, List.drop_nil]

theorem strdata_append (s t : String) : (s ++ t).data = s.data ++ t.data := by
  cases s
  cases t
  rfl

theorem strmk_append (a b : List Char) : (String.mk a) ++ (String.mk b) = String.mk (a ++ b) :=
  rfl

theorem isSuffixOf_append_of_le {l₁ l₂ : List Char} (y : List Char)
    (h : l₁.length ≤ l₂.length) : l₁.isSuffixOf (y ++ l₂) = l₁.isSuffixOf l₂ := by
  have hiff : (l₁.isSuffixOf (y ++ l₂) = true) ↔ (l₁.isSuffixOf l₂ = true) := by
    rw [List.isSuffixOf_iff_suffix, List.isSuffixOf_iff_suffix]
    constructor
    · rintro ⟨p, hp⟩
      have hlen : y.length ≤ p.length := by
        have hl := congrArg List.length hp
        simp only [List.length_append] at hl
        omega
      have hsplit : p.take y.length ++ (p.drop y.length ++ l₁) = y ++ l₂ := by
        rw [← List.append_assoc, List.take_append_drop]
        exact hp
      have hinj := List.append_inj hsplit (by rw [List.length_take]; omega)
      exact ⟨p.drop y.length, hinj.2⟩
    · rintro ⟨p, hp⟩
      exact ⟨y ++ p, by rw [List.append_assoc, hp]⟩
  cases ha : l₁.isSuffixOf (y ++ l₂) <;> cases hb : l₁.isSuffixOf l₂ <;> simp_all

theorem ciPng_pngS (b : List Char) : strEndsWith (strLower (pngS b)) ".png" = true := by
  rw [strEndsWith, strLower, string_mk_data]
  have hdata : (pngS b).data = b ++ ".png".data := rfl
  rw [hdata, List.map_append]
  have hlow : (".png".data).map lowerChar = ".png".data := by decide
  rw [hlow, List.isSuffixOf_iff_suffix]
  exact List.suffix_append _ _

theorem ciPng_txtS (b : List Char) : strEndsWith (strLower (txtS b)) ".png" = false := by
  rw [strEndsWith, strLower, string_mk_data]
  have hdata : (txtS b).data = b ++ ".txt".data := rfl
  rw [hdata, List.map_append]
  have hlow : (".txt".data).map lowerChar = ".txt".data := by decide
  rw [hlow, isSuffixOf_append_of_le _ (by decide)]
  decide

theorem ciPng_blurryTxt (s : String) :
    strEndsWith (strLower (s ++ "-blurry.txt")) ".png" = false := by
  rw [strEndsWith, strLower, string_mk_data, strdata_append, List.map_append]
  have hlow : (("-blurry.txt" : String).data).map lowerChar = ("-blurry.txt" : String).data := by
    decide
  rw [hlow, isSuffixOf_append_of_le _ (by decide)]
  decide

theorem pngS_ne_txtS (b₁ b₂ : List Char) : pngS b₁ ≠ txtS b₂ := by
  intro h
  have hd : b₁ ++ ".png".data = b₂ ++ ".txt".data := congrArg String.data h
  have := (List.append_inj' hd (by decide)).2
  exact absurd this (by decide)

theorem splitextAux_png {b : List Char} (h : ∀ c ∈ b, c ≠ '.') :
    splitextAux (b ++ ".png".data) = (b, ".png".data) := by
  induction b with
  | nil => decide
  | cons c cs ih =>
    rw [List.cons_append, splitextAux]
    have hdot : '.' ∈ (cs ++ ".png".data) := List.mem_append_right _ (by decide)
    rw [if_pos hdot, ih (fun x hx => h x (List.mem_cons_of_mem c hx))]

theorem splitext_pngS {b : List Char} (h : ∀ c ∈ b, c ≠ '.') :
    splitext (pngS b) = (String.mk b, ".png") := by
  rw [splitext]
  have hdata : (pngS b).data = b ++ ".png".data := rfl
  rw [hdata, splitextAux_png h]

theorem replAux_skip_all (pat rep : List Char) : ∀ (l : List Char) (n : ℕ),
    l.length ≤ n → replAux pat rep l n = [] := by
  intro l
  induction l with
  | nil => intro n _; rfl
  | cons c cs ih =>
    intro n hn
    rcases n with _ | m
    · simp at hn
    · rw [replAux]
      exact ih m (by simp only [List.length_cons] at hn; omega)

theorem replAux_base (pt rep : List Char) : ∀ {b : List Char}, (∀ c ∈ b, c ≠ '.') →
    replAux ('.' :: pt) rep (b ++ '.' :: pt) 0 = b ++ rep := by
  intro b
  induction b with
  | nil =>
    intro _
    rw [List.nil_append, replAux,
      if_pos ⟨List.cons_ne_nil _ _, List.isPrefixOf_iff_prefix.mpr (List.prefix_refl _)⟩]
    rw [show ('.' :: pt).length - 1 = pt.length by simp]
    rw [replAux_skip_all _ _ pt pt.length le_rfl, List.append_nil, List.nil_append]
  | cons c cs ih =>
    intro h
    have hc : c ≠ '.' := h c (List.mem_cons_self c cs)
    rw [List.cons_append, replAux, if_neg]
    · rw [ih (fun x hx => h x (List.mem_cons_of_mem c hx))]
      rfl
    · rintro ⟨-, hpre⟩
      rw [List.isPrefixOf_iff_prefix] at hpre
      obtain ⟨t, ht⟩ := hpre
      rw [List.cons_append] at ht
      have : '.' = c := (List.cons.injEq _ _ _ _).mp ht |>.1
      exact hc this.symm

theorem strReplace_png_txt {b : List Char} (h : ∀ c ∈ b, c ≠ '.') :
    strReplace (pngS b) ".png" ".txt" = txtS b := by
  rw [strReplace, txtS]
  exact congrArg String.mk (replAux_base _ _ h)

theorem strReplace_png_rotPng {b : List Char} (h : ∀ c ∈ b, c ≠ '.') :
    strReplace (pngS b) ".png" "-rotated.png" = pngS (b ++ roSfx) := by
  rw [strReplace]
  apply congrArg String.mk
  have h1 : replAux (".png".data) (("-rotated.png" : String).data) ((pngS b).data) 0 =
      b ++ ("-rotated.png" : String).data := replAux_base _ _ h
  rw [h1, List.append_assoc]
  rfl

theorem strReplace_png_rotTxt {b : List Char} (h : ∀ c ∈ b, c ≠ '.') :
    strReplace (pngS b) ".png" "-rotated.txt" = txtS (b ++ roSfx) := by
  rw [strReplace]
  apply congrArg String.mk
  have h1 : replAux (".png".data) (("-rotated.txt" : String).data) ((pngS b).data) 0 =
      b ++ ("-rotated.txt" : String).data := replAux_base _ _ h
  rw [h1, List.append_assoc]
  rfl

theorem lookup_eq_none_of_not_mem {d : Dir} {n : String} (h : n ∉ listdir d) :
    lookup d n = none := by
  induction d with
  | nil => rfl
  | cons e es ih =>
    have hne : e.1 ≠ n := by
      intro he
      apply h
      rw [listdir, List.map_cons, he]
      exact List.mem_cons_self n _
    rw [lookup, if_neg hne]
    exact ih (fun hm => h (List.mem_cons_of_mem e.1 hm))

theorem mem_listdir_of_lookup {d : Dir} {n : String} {v : FileData}
    (h : lookup d n = some v) : n ∈ listdir d := by
  induction d with
  | nil => cases h
  | cons e es ih =>
    by_cases he : e.1 = n
    · rw [listdir, List.map_cons, he]
      exact List.mem_cons_self n _
    · rw [lookup, if_neg he] at h
      exact List.mem_cons_of_mem e.1 (ih h)

theorem removeEntry_of_lookup_none {d : Dir} {n : String} (h : lookup d n = none) :
    removeEntry d n = d := by
  induction d with
  | nil => rfl
  | cons e es ih =>
    by_cases he : e.1 = n
    · rw [lookup, if_pos he] at h
      cases h
    · rw [lookup, if_neg he] at h
      rw [removeEntry, if_neg he, ih h]

theorem writeEntry_fresh {d : Dir} {n : String} (f : FileData) (h : lookup d n = none) :
    writeEntry d n f = d ++ [(n, f)] := by
  rw [writeEntry, removeEntry_of_lookup_none h]

theorem listdir_append (d₁ d₂ : Dir) : listdir (d₁ ++ d₂) = listdir d₁ ++ listdir d₂ :=
  List.map_append _ d₁ d₂

theorem mem_listdir_removeEntry_of_ne {d : Dir} {m n : String} (hm : m ∈ listdir d)
    (hne : m ≠ n) : m ∈ listdir (removeEntry d n) := by
  induction d with
  | nil => cases hm
  | cons e es ih =>
    rcases List.mem_cons.mp hm with he | he
    · rw [removeEntry, if_neg (fun h2 => hne (he.trans h2))]
      rw [listdir, List.map_cons, ← he]
      exact List.mem_cons_self m _
    · by_cases h2 : e.1 = n
      · rw [removeEntry, if_pos h2]
        exact ih he
      · rw [removeEntry, if_neg h2]
        exact List.mem_cons_of_mem e.1 (ih he)

theorem mem_listdir_writeEntry_self (d : Dir) (n : String) (f : FileData) :
    n ∈ listdir (writeEntry d n f) := by
  rw [writeEntry, listdir_append]
  exact List.mem_append_right _ (List.mem_singleton.mpr rfl)

theorem mem_listdir_writeEntry_of_mem {d : Dir} {m : String} (n : String) (f : FileData)
    (hm : m ∈ listdir d) : m ∈ listdir (writeEntry d n f) := by
  by_cases he : m = n
  · rw [he]
    exact mem_listdir_writeEntry_self d n f
  · rw [writeEntry, listdir_append]
    exact List.mem_append_left _ (mem_listdir_removeEntry_of_ne hm he)

theorem blurStep_hit (A : Dir) (b : List Char) (px : ImgData) (L : List (List String))
    (hdots : ∀ c ∈ b, c ≠ '.')
    (hpng : lookup A (pngS b) = some (.image px))
    (htxt : lookup A (txtS b) = some (.text L))
    (hn1 : pngS (b ++ blSfx) ∉ listdir A)
    (hn2 : txtS (b ++ blSfx) ∉ listdir A) :
    blurStep A (pngS b) = Except.ok
      (A ++ [(pngS (b ++ blSfx), .image (.blurred px)),
             (txtS (b ++ blSfx), .text L)]) := by
  have hname : (splitext (pngS b)).1 ++ "-blurry" ++ (splitext (pngS b)).2 =
      pngS (b ++ blSfx) := by
    rw [splitext_pngS hdots]
    rfl
  have hlblS : (splitext (pngS b)).1 ++ ".txt" = txtS b := by
    rw [splitext_pngS hdots]
    rfl
  have hlblB : (splitext (pngS b)).1 ++ "-blurry.txt" = txtS (b ++ blSfx) := by
    rw [splitext_pngS hdots]
    apply congrArg String.mk
    rw [List.append_assoc]
    rfl
  have hlk2 : lookup (A ++ [(pngS (b ++ blSfx), FileData.image (.blurred px))])
      (txtS (b ++ blSfx)) = none := by
    rw [lookup_append_of_none _ (lookup_eq_none_of_not_mem hn2), lookup,
      if_neg (pngS_ne_txtS _ _)]
    rfl
  rw [blurStep, ciPng_pngS, if_pos rfl]
  simp only [hpng, hname, hlblS, hlblB,
    writeEntry_fresh _ (lookup_eq_none_of_not_mem hn1),
    lookup_append_of_some _ htxt, writeEntry_fresh _ hlk2, List.append_assoc]
  rfl

theorem blurStep_skip (A : Dir) (b : List Char) : blurStep A (txtS b) = Except.ok A := by
  rw [blurStep, ciPng_txtS, if_neg Bool.false_ne_true]

theorem blurFoldStruct : ∀ (pending : List PoolSample) (A : Dir),
    (∀ s ∈ pending, lookup A (pngS s.1) = some (.image s.2.1) ∧
      lookup A (txtS s.1) = some (.text s.2.2)) →
    (∀ s ∈ pending, ∀ c ∈ s.1, c ≠ '.') →
    (listdir (A ++ blurOut pending)).Nodup →
    (pending.flatMap (fun s => [pngS s.1, txtS s.1])).foldlM blurStep A =
      Except.ok (A ++ blurOut pending) := by
  intro pending
  induction pending with
  | nil =>
    intro A _ _ _
    simp only [List.flatMap_nil, List.foldlM_nil, blurOut, List.append_nil]
    rfl
  | cons s rest ih =>
    intro A hP hdot hnd
    obtain ⟨hpng, htxt⟩ := hP s (List.mem_cons_self s rest)
    have hdots : ∀ c ∈ s.1, c ≠ '.' := hdot s (List.mem_cons_self s rest)
    have hblc : blurOut (s :: rest) =
        (pngS (s.1 ++ blSfx), FileData.image (.blurred s.2.1)) ::
          (txtS (s.1 ++ blSfx), FileData.text s.2.2) :: blurOut rest := rfl
    have hnd' : (listdir A ++ pngS (s.1 ++ blSfx) ::
        txtS (s.1 ++ blSfx) :: listdir (blurOut rest)).Nodup := by
      have h0 := hnd
      rw [hblc, listdir_append] at h0
      exact h0
    have hnodups := hnd'
    rw [List.nodup_append] at hnodups
    obtain ⟨-, hndR, hdisj⟩ := hnodups
    have hn1 : pngS (s.1 ++ blSfx) ∉ listdir A :=
      fun hm => hdisj hm (List.mem_cons_self _ _)
    have hn2 : txtS (s.1 ++ blSfx) ∉ listdir A :=
      fun hm => hdisj hm (List.mem_cons_of_mem _ (List.mem_cons_self _ _))
    have hstep1 := blurStep_hit A s.1 s.2.1 s.2.2 hdots hpng htxt hn1 hn2
    have hflat : (s :: rest).flatMap (fun u => [pngS u.1, txtS u.1]) =
        pngS s.1 :: txtS s.1 :: rest.flatMap (fun u => [pngS u.1, txtS u.1]) := rfl
    rw [hflat, List.foldlM_cons, hstep1, except_bind_ok, List.foldlM_cons,
      blurStep_skip _ s.1, except_bind_ok]
    have hih := ih (A ++ [(pngS (s.1 ++ blSfx), FileData.image (.blurred s.2.1)),
        (txtS (s.1 ++ blSfx), FileData.text s.2.2)])
      (fun u hu => ⟨lookup_append_of_some _ (hP u (List.mem_cons_of_mem s hu)).1,
        lookup_append_of_some _ (hP u (List.mem_cons_of_mem s hu)).2⟩)
      (fun u hu => hdot u (List.mem_cons_of_mem s hu))
      (by
        rw [List.append_assoc]
        have h0 := hnd
        rw [hblc] at h0
        exact h0)
    rw [hih, hblc, List.append_assoc]
    rfl

theorem rotStep_hit (tr : BoxTransform) (A : Dir) (last : Option (String × String))
    (b : List Char) (px : ImgData) (L : List (List String))
    (hdots : ∀ c ∈ b, c ≠ '.')
    (hpng : lookup A (pngS b) = some (.image px))
    (htxt : lookup A (txtS b) = some (.text L))
    (hparse : parseOk L = true)
    (hn1 : pngS (b ++ roSfx) ∉ listdir A)
    (hn2 : txtS (b ++ roSfx) ∉ listdir A) :
    rotStep tr ⟨A, last⟩ (pngS b) = Except.ok
      ⟨A ++ [(pngS (b ++ roSfx), .image (.rotated px)),
             (txtS (b ++ roSfx), .text (rotLabel tr L))],
        some (pngS (b ++ roSfx), txtS (b ++ roSfx))⟩ := by
  rcases hpl : parseLines L with e | parsed
  case error =>
    simp only [parseOk, hpl] at hparse
    cases hparse
  · have hrl : rotLabel tr L =
        serializeBoxes ((tr (parsed.map Prod.snd)).zip (parsed.map Prod.fst)) := by
      simp only [rotLabel, hpl]
    have hlk2 : lookup (A ++ [(pngS (b ++ roSfx), FileData.image (.rotated px))])
        (txtS (b ++ roSfx)) = none := by
      rw [lookup_append_of_none _ (lookup_eq_none_of_not_mem hn2), lookup,
        if_neg (pngS_ne_txtS _ _)]
      rfl
    rw [rotStep, ciPng_pngS, if_pos rfl]
    simp only [hpng, strReplace_png_txt hdots, htxt, hpl, strReplace_png_rotPng hdots,
      strReplace_png_rotTxt hdots, writeEntry_fresh _ (lookup_eq_none_of_not_mem hn1),
      writeEntry_fresh _ hlk2, hrl, List.append_assoc]
    rfl

theorem rotStep_skip (tr : BoxTransform) (st : RotSt) (b : List Char) :
    rotStep tr st (txtS b) = Except.ok st := by
  rw [rotStep, ciPng_txtS, if_neg Bool.false_ne_true]

theorem rotFoldStruct (tr : BoxTransform) : ∀ (pending : List PoolSample) (A : Dir)
    (last : Option (String × String)),
    (∀ s ∈ pending, lookup A (pngS s.1) = some (.image s.2.1) ∧
      lookup A (txtS s.1) = some (.text s.2.2)) →
    (∀ s ∈ pending, ∀ c ∈ s.1, c ≠ '.') →
    (∀ s ∈ pending, parseOk s.2.2 = true) →
    (listdir (A ++ rotOut tr pending)).Nodup →
    ∃ last',
      (pending.flatMap (fun s => [pngS s.1, txtS s.1])).foldlM (rotStep tr) ⟨A, last⟩ =
        Except.ok ⟨A ++ rotOut tr pending, last'⟩ := by
  intro pending
  induction pending with
  | nil =>
    intro A last _ _ _ _
    refine ⟨last, ?_⟩
    simp only [List.flatMap_nil, List.foldlM_nil, rotOut, List.append_nil]
    rfl
  | cons s rest ih =>
    intro A last hP hdot hparse hnd
    obtain ⟨hpng, htxt⟩ := hP s (List.mem_cons_self s rest)
    have hdots : ∀ c ∈ s.1, c ≠ '.' := hdot s (List.mem_cons_self s rest)
    have hps : parseOk s.2.2 = true := hparse s (List.mem_cons_self s rest)
    have hroc : rotOut tr (s :: rest) =
        (pngS (s.1 ++ roSfx), FileData.image (.rotated s.2.1)) ::
          (txtS (s.1 ++ roSfx), FileData.text (rotLabel tr s.2.2)) :: rotOut tr rest := rfl
    have hnd' : (listdir A ++ pngS (s.1 ++ roSfx) ::
        txtS (s.1 ++ roSfx) :: listdir (rotOut tr rest)).Nodup := by
      have h0 := hnd
      rw [hroc, listdir_append] at h0
      exact h0
    have hnodups := hnd'
    rw [List.nodup_append] at hnodups
    obtain ⟨-, -, hdisj⟩ := hnodups
    have hn1 : pngS (s.1 ++ roSfx) ∉ listdir A :=
      fun hm => hdisj hm (List.mem_cons_self _ _)
    have hn2 : txtS (s.1 ++ roSfx) ∉ listdir A :=
      fun hm => hdisj hm (List.mem_cons_of_mem _ (List.mem_cons_self _ _))
    have hstep1 := rotStep_hit tr A last s.1 s.2.1 s.2.2 hdots hpng htxt hps hn1 hn2
    have hflat : (s :: rest).flatMap (fun u => [pngS u.1, txtS u.1]) =
        pngS s.1 :: txtS s.1 :: rest.flatMap (fun u => [pngS u.1, txtS u.1]) := rfl
    obtain ⟨last', hih⟩ := ih (A ++ [(pngS (s.1 ++ roSfx), FileData.image (.rotated s.2.1)),
        (txtS (s.1 ++ roSfx), FileData.text (rotLabel tr s.2.2))])
      (some (pngS (s.1 ++ roSfx), txtS (s.1 ++ roSfx)))
      (fun u hu => ⟨lookup_append_of_some _ (hP u (List.mem_cons_of_mem s hu)).1,
        lookup_append_of_some _ (hP u (List.mem_cons_of_mem s hu)).2⟩)
      (fun u hu => hdot u (List.mem_cons_of_mem s hu))
      (fun u hu => hparse u (List.mem_cons_of_mem s hu))
      (by
        rw [List.append_assoc]
        have h0 := hnd
        rw [hroc] at h0
        exact h0)
    refine ⟨last', ?_⟩
    rw [hflat, List.foldlM_cons, hstep1, except_bind_ok, List.foldlM_cons,
      rotStep_skip tr _ s.1, except_bind_ok, hih, hroc, List.append_assoc]
    rfl

/-- The rotation pass on a directory whose snapshot listing folds cleanly. -/
theorem rotate_of_fold {tr : BoxTransform} {d d' : Dir} {last' : Option (String × String)}
    (h : (listdir d).foldlM (rotStep tr) ⟨d, none⟩ = Except.ok ⟨d', last'⟩) :
    rotate_image_and_labels tr d = Except.ok d' := by
  rw [rotate_image_and_labels, h]
  rfl

theorem poolOf_append (l₁ l₂ : List PoolSample) :
    poolOf (l₁ ++ l₂) = poolOf l₁ ++ poolOf l₂ := by
  rw [poolOf, poolOf, poolOf, List.flatMap_append]

theorem blurOut_eq (samples : List PoolSample) :
    blurOut samples = poolOf (blurUnits samples) := by
  rw [blurOut, poolOf, blurUnits, List.flatMap_map]

theorem rotOut_eq (tr : BoxTransform) (units : List PoolSample) :
    rotOut tr units = poolOf (rotUnits tr units) := by
  rw [rotOut, poolOf, rotUnits, List.flatMap_map]

theorem listdir_poolOf (units : List PoolSample) :
    listdir (poolOf units) = units.flatMap (fun s => [pngS s.1, txtS s.1]) := by
  induction units with
  | nil => rfl
  | cons u us ih =>
    have h1 : poolOf (u :: us) =
        (pngS u.1, FileData.image u.2.1) :: (txtS u.1, FileData.text u.2.2) :: poolOf us := rfl
    rw [h1, listdir, List.map_cons, List.map_cons]
    have h2 : (u :: us).flatMap (fun s => [pngS s.1, txtS s.1]) =
        pngS u.1 :: txtS u.1 :: us.flatMap (fun s => [pngS s.1, txtS s.1]) := rfl
    rw [h2, ← ih]
    rfl

theorem mem_listdir_poolOf {units : List PoolSample} {u : PoolSample} (hu : u ∈ units) :
    pngS u.1 ∈ listdir (poolOf units) ∧ txtS u.1 ∈ listdir (poolOf units) := by
  rw [listdir_poolOf]
  constructor
  · exact List.mem_flatMap.mpr ⟨u, hu, List.mem_cons_self _ _⟩
  · exact List.mem_flatMap.mpr ⟨u, hu, List.mem_cons_of_mem _ (List.mem_cons_self _ _)⟩

theorem lookup_poolOf : ∀ {units : List PoolSample},
    (listdir (poolOf units)).Nodup → ∀ u ∈ units,
    lookup (poolOf units) (pngS u.1) = some (.image u.2.1) ∧
    lookup (poolOf units) (txtS u.1) = some (.text u.2.2) := by
  intro units
  induction units with
  | nil =>
    intro _ u hu
    exact absurd hu (List.not_mem_nil u)
  | cons t ts ih =>
    intro hnd u hu
    have h1 : poolOf (t :: ts) =
        (pngS t.1, FileData.image t.2.1) :: (txtS t.1, FileData.text t.2.2) :: poolOf ts := rfl
    have hld : listdir (poolOf (t :: ts)) =
        pngS t.1 :: txtS t.1 :: listdir (poolOf ts) := rfl
    rw [hld] at hnd
    rcases List.mem_cons.mp hu with he | he
    · subst he
      constructor
      · rw [h1, lookup, if_pos rfl]
      · rw [h1, lookup, if_neg (pngS_ne_txtS u.1 u.1), lookup, if_pos rfl]
    · have hnd2 : (listdir (poolOf ts)).Nodup := (hnd.sublist (by
        refine List.Sublist.trans ?_ (List.sublist_cons_self _ _)
        exact List.sublist_cons_self _ _))
      have hmem := @mem_listdir_poolOf ts _ he
      have hne1 : pngS t.1 ≠ pngS u.1 := by
        intro hp
        have := hnd.not_mem
        rw [hp] at this
        exact this (List.mem_cons_of_mem _ hmem.1)
      have hne2 : txtS t.1 ≠ pngS u.1 := fun hp => pngS_ne_txtS u.1 t.1 hp.symm
      have hne3 : pngS t.1 ≠ txtS u.1 := pngS_ne_txtS t.1 u.1
      have hne4 : txtS t.1 ≠ txtS u.1 := by
        intro hp
        have h2 := hnd.of_cons.not_mem
        rw [hp] at h2
        exact h2 hmem.2
      obtain ⟨ih1, ih2⟩ := ih hnd2 u he
      constructor
      · rw [h1, lookup, if_neg hne1, lookup, if_neg hne2]
        exact ih1
      · rw [h1, lookup, if_neg hne3, lookup, if_neg hne4]
        exact ih2

theorem lookup_mem : ∀ {d : Dir} {n : String} {v : FileData},
    lookup d n = some v → (n, v) ∈ d := by
  intro d
  induction d with
  | nil => intro n v h; cases h
  | cons e es ih =>
    intro n v h
    by_cases he : e.1 = n
    · rw [lookup, if_pos he] at h
      rcases e with ⟨en, ev⟩
      cases h
      rw [← he]
      exact List.mem_cons_self _ _
    · rw [lookup, if_neg he] at h
      exact List.mem_cons_of_mem _ (ih h)

theorem mem_listdir_of_mem_removeEntry : ∀ {d : Dir} {m n : String},
    m ∈ listdir (removeEntry d n) → m ∈ listdir d := by
  intro d
  induction d with
  | nil => intro m n h; cases h
  | cons e es ih =>
    intro m n h
    by_cases he : e.1 = n
    · rw [removeEntry, if_pos he] at h
      exact List.mem_cons_of_mem _ (ih h)
    · rw [removeEntry, if_neg he] at h
      rcases List.mem_cons.mp h with h1 | h1
      · rw [h1]
        exact List.mem_cons_self _ _
      · exact List.mem_cons_of_mem _ (ih h1)

theorem mem_listdir_of_mem_writeEntry {d : Dir} {m n : String} {f : FileData}
    (h : m ∈ listdir (writeEntry d n f)) : m = n ∨ m ∈ listdir d := by
  rw [writeEntry, listdir_append] at h
  rcases List.mem_append.mp h with h1 | h1
  · exact Or.inr (mem_listdir_of_mem_removeEntry h1)
  · rcases List.mem_cons.mp h1 with h2 | h2
    · exact Or.inl h2
    · exact absurd h2 (List.not_mem_nil m)

theorem wf_writeEntry_image {d : Dir} (n : String) (q : ImgData)
    (hwf : ∀ g ∈ listdir d, strEndsWith (strLower g) ".png" = true →
      ∃ px, lookup d g = some (.image px)) :
    ∀ g ∈ listdir (writeEntry d n (.image q)), strEndsWith (strLower g) ".png" = true →
      ∃ px, lookup (writeEntry d n (.image q)) g = some (.image px) := by
  intro g hg hci
  by_cases he : g = n
  · refine ⟨q, ?_⟩
    rw [he, lookup_writeEntry_self]
  · rw [lookup_writeEntry_ne d _ he]
    rcases mem_listdir_of_mem_writeEntry hg with h1 | h1
    · exact absurd h1 he
    · exact hwf g h1 hci

theorem wf_writeEntry_nonpng {d : Dir} {n : String} (v : FileData)
    (hn : strEndsWith (strLower n) ".png" = false)
    (hwf : ∀ g ∈ listdir d, strEndsWith (strLower g) ".png" = true →
      ∃ px, lookup d g = some (.image px)) :
    ∀ g ∈ listdir (writeEntry d n v), strEndsWith (strLower g) ".png" = true →
      ∃ px, lookup (writeEntry d n v) g = some (.image px) := by
  intro g hg hci
  have he : g ≠ n := by
    intro h
    rw [h, hn] at hci
    cases hci
  rw [lookup_writeEntry_ne d v he]
  rcases mem_listdir_of_mem_writeEntry hg with h1 | h1
  · exact absurd h1 he
  · exact hwf g h1 hci

theorem blurStep_inv (st : Dir) (f : String)
    (hwf : ∀ g ∈ listdir st, strEndsWith (strLower g) ".png" = true →
      ∃ px, lookup st g = some (.image px))
    (hf : f ∈ listdir st) :
    ∃ st2, blurStep st f = Except.ok st2 ∧
      (∀ m ∈ listdir st, m ∈ listdir st2) ∧
      (strEndsWith (strLower f) ".png" = true →
        ((splitext f).1 ++ "-blurry" ++ (splitext f).2) ∈ listdir st2) ∧
      (∀ g ∈ listdir st2, strEndsWith (strLower g) ".png" = true →
        ∃ px, lookup st2 g = some (.image px)) := by
  by_cases hci : strEndsWith (strLower f) ".png" = true
  · obtain ⟨px, hpx⟩ := hwf f hf hci
    rcases hl : lookup (writeEntry st ((splitext f).1 ++ "-blurry" ++ (splitext f).2)
        (FileData.image (.blurred px))) ((splitext f).1 ++ ".txt") with _ | lf
    · refine ⟨writeEntry st ((splitext f).1 ++ "-blurry" ++ (splitext f).2)
          (FileData.image (.blurred px)), ?_, ?_, ?_, ?_⟩
      · rw [blurStep, hci, if_pos rfl]
        simp only [hpx, hl]
      · exact fun m hm => mem_listdir_writeEntry_of_mem _ _ hm
      · intro _
        exact mem_listdir_writeEntry_self _ _ _
      · exact wf_writeEntry_image _ _ hwf
    · refine ⟨writeEntry (writeEntry st ((splitext f).1 ++ "-blurry" ++ (splitext f).2)
          (FileData.image (.blurred px))) ((splitext f).1 ++ "-blurry.txt") lf, ?_, ?_, ?_, ?_⟩
      · rw [blurStep, hci, if_pos rfl]
        simp only [hpx, hl]
      · exact fun m hm => mem_listdir_writeEntry_of_mem _ _
          (mem_listdir_writeEntry_of_mem _ _ hm)
      · intro _
        exact mem_listdir_writeEntry_of_mem _ _ (mem_listdir_writeEntry_self _ _ _)
      · exact wf_writeEntry_nonpng _ (ciPng_blurryTxt _) (wf_writeEntry_image _ _ hwf)
  · refine ⟨st, ?_, fun m hm => hm, fun h => absurd h hci, hwf⟩
    rw [blurStep]
    rcases hb : strEndsWith (strLower f) ".png" with _ | _
    · rw [if_neg Bool.false_ne_true]
    · exact absurd hb hci

theorem blur_fold_inv : ∀ (names : List String) (st : Dir),
    (∀ g ∈ listdir st, strEndsWith (strLower g) ".png" = true →
      ∃ px, lookup st g = some (.image px)) →
    (∀ g ∈ names, g ∈ listdir st) →
    ∃ st', names.foldlM blurStep st = Except.ok st' ∧
      (∀ m ∈ listdir st, m ∈ listdir st') ∧
      (∀ f ∈ names, strEndsWith (strLower f) ".png" = true →
        ((splitext f).1 ++ "-blurry" ++ (splitext f).2) ∈ listdir st') := by
  intro names
  induction names with
  | nil =>
    intro st hwf hmem
    refine ⟨st, ?_, fun m hm => hm, fun f hf => absurd hf (List.not_mem_nil f)⟩
    rw [List.foldlM_nil]
    rfl
  | cons f fs ih =>
    intro st hwf hmem
    obtain ⟨st2, hstep, hmono, hbn, hwf2⟩ :=
      blurStep_inv st f hwf (hmem f (List.mem_cons_self f fs))
    obtain ⟨st', hfold, hmono', hbn'⟩ := ih st2 hwf2
      (fun g hg => hmono g (hmem g (List.mem_cons_of_mem f hg)))
    refine ⟨st', ?_, fun m hm => hmono' m (hmono m hm), ?_⟩
    · rw [List.foldlM_cons, hstep, except_bind_ok, hfold]
    · intro g hg hci
      rcases List.mem_cons.mp hg with h1 | h1
      · rw [h1]
        exact hmono' _ (hbn (h1 ▸ hci))
      · exact hbn' g h1 hci

theorem lookup_isSome_of_mem : ∀ {d : Dir} {n : String}, n ∈ listdir d →
    ∃ v, lookup d n = some v := by
  intro d
  induction d with
  | nil => intro n h; cases h
  | cons e es ih =>
    intro n h
    by_cases he : e.1 = n
    · exact ⟨e.2, by rw [lookup, if_pos he]⟩
    · rcases List.mem_cons.mp h with h1 | h1
      · exact absurd h1.symm he
      · obtain ⟨v, hv⟩ := ih h1
        exact ⟨v, by rw [lookup, if_neg he]; exact hv⟩

theorem wf_poolOf (units : List PoolSample) :
    ∀ g ∈ listdir (poolOf units), strEndsWith (strLower g) ".png" = true →
      ∃ px, lookup (poolOf units) g = some (.image px) := by
  intro g hg hci
  obtain ⟨v, hv⟩ := lookup_isSome_of_mem hg
  have hmem := lookup_mem hv
  rw [poolOf, List.mem_flatMap] at hmem
  obtain ⟨u, -, hu⟩ := hmem
  rcases List.mem_cons.mp hu with h1 | h1
  · have hgn : g = pngS u.1 := congrArg Prod.fst h1
    have hgv : v = FileData.image u.2.1 := congrArg Prod.snd h1
    exact ⟨u.2.1, by rw [hv, hgv]⟩
  · rcases List.mem_cons.mp h1 with h2 | h2
    · have hgn : g = txtS u.1 := congrArg Prod.fst h2
      rw [hgn, ciPng_txtS] at hci
      cases hci
    · exact absurd h2 (List.not_mem_nil _)

/-- C9: the augmenters read from and write into the same directory.  For a
well-formed structured pool (distinct collision-free names, every image
labeled with a parseable annotation) the blur pass appends its blurry-tagged
derivatives into the very directory the rotation pass then lists, so the
rotation pass rotates every blur-derived sample too, producing the
blurry-rotated files; and a further blur pass over the augmented directory
re-augments the previously derived files, producing blurry-blurry files. -/
theorem c9_augmentation_compounds (samples : List PoolSample) (tr : BoxTransform)
    (hdot : ∀ s ∈ samples, ∀ c ∈ s.1, c ≠ '.')
    (hparse : ∀ s ∈ samples, parseOk s.2.2 = true)
    (hnd : (listdir (poolOf samples ++ blurOut samples ++
        rotOut tr (samples ++ blurUnits samples))).Nodup) :
    blur_images (poolOf samples) = Except.ok (poolOf samples ++ blurOut samples) ∧
    rotate_image_and_labels tr (poolOf samples ++ blurOut samples) =
      Except.ok (poolOf samples ++ blurOut samples ++
        rotOut tr (samples ++ blurUnits samples)) ∧
    (∀ s ∈ samples,
      pngS (s.1 ++ blSfx) ∈ listdir (poolOf samples ++ blurOut samples ++
        rotOut tr (samples ++ blurUnits samples)) ∧
      pngS (s.1 ++ blSfx ++ roSfx) ∈ listdir (poolOf samples ++ blurOut samples ++
        rotOut tr (samples ++ blurUnits samples)) ∧
      txtS (s.1 ++ blSfx ++ roSfx) ∈ listdir (poolOf samples ++ blurOut samples ++
        rotOut tr (samples ++ blurUnits samples))) ∧
    (∃ d₃, blur_images (poolOf samples ++ blurOut samples ++
        rotOut tr (samples ++ blurUnits samples)) = Except.ok d₃ ∧
      ∀ s ∈ samples, pngS (s.1 ++ blSfx ++ blSfx) ∈ listdir d₃) := by
  have hblDot : ∀ c ∈ blSfx, c ≠ '.' := by decide
  have hndflat := hnd
  rw [listdir_append, listdir_append] at hndflat
  have hndPB : (listdir (poolOf samples) ++ listdir (blurOut samples)).Nodup :=
    hndflat.sublist (List.sublist_append_left _ _)
  have hndP : (listdir (poolOf samples)).Nodup :=
    hndPB.sublist (List.sublist_append_left _ _)
  have hndB : (listdir (blurOut samples)).Nodup :=
    hndPB.sublist (List.sublist_append_right _ _)
  have hdisjPB : ∀ x ∈ listdir (blurOut samples), x ∉ listdir (poolOf samples) := by
    rw [List.nodup_append] at hndPB
    intro x hx hxP
    exact hndPB.2.2 hxP hx
  have hPpool := lookup_poolOf hndP
  have hndB' : (listdir (poolOf (blurUnits samples))).Nodup := by
    rw [← blurOut_eq]
    exact hndB
  have hBpool : ∀ u ∈ blurUnits samples,
      lookup (blurOut samples) (pngS u.1) = some (.image u.2.1) ∧
      lookup (blurOut samples) (txtS u.1) = some (.text u.2.2) := by
    intro u hu
    have h0 := lookup_poolOf hndB' u hu
    rw [← blurOut_eq] at h0
    exact h0
  have hblurfold := blurFoldStruct samples (poolOf samples) hPpool hdot
    (by rw [listdir_append]; exact hndPB)
  have hblur : blur_images (poolOf samples) =
      Except.ok (poolOf samples ++ blurOut samples) := by
    rw [blur_images, listdir_poolOf]
    exact hblurfold
  have hldPB : listdir (poolOf samples ++ blurOut samples) =
      (samples ++ blurUnits samples).flatMap (fun s => [pngS s.1, txtS s.1]) := by
    rw [listdir_append, listdir_poolOf, blurOut_eq, listdir_poolOf, List.flatMap_append]
  have hPU : ∀ u ∈ samples ++ blurUnits samples,
      lookup (poolOf samples ++ blurOut samples) (pngS u.1) = some (.image u.2.1) ∧
      lookup (poolOf samples ++ blurOut samples) (txtS u.1) = some (.text u.2.2) := by
    intro u hu
    rcases List.mem_append.mp hu with h1 | h1
    · exact ⟨lookup_append_of_some _ (hPpool u h1).1,
        lookup_append_of_some _ (hPpool u h1).2⟩
    · have hm := @mem_listdir_poolOf (blurUnits samples) _ h1
      rw [← blurOut_eq] at hm
      constructor
      · rw [lookup_append_of_none _ (lookup_eq_none_of_not_mem (hdisjPB _ hm.1))]
        exact (hBpool u h1).1
      · rw [lookup_append_of_none _ (lookup_eq_none_of_not_mem (hdisjPB _ hm.2))]
        exact (hBpool u h1).2
  have hdotU : ∀ u ∈ samples ++ blurUnits samples, ∀ c ∈ u.1, c ≠ '.' := by
    intro u hu
    rcases List.mem_append.mp hu with h1 | h1
    · exact hdot u h1
    · rw [blurUnits, List.mem_map] at h1
      obtain ⟨s, hs, hsu⟩ := h1
      intro c hc
      rw [← hsu] at hc
      rcases List.mem_append.mp hc with h2 | h2
      · exact hdot s hs c h2
      · exact hblDot c h2
  have hparseU : ∀ u ∈ samples ++ blurUnits samples, parseOk u.2.2 = true := by
    intro u hu
    rcases List.mem_append.mp hu with h1 | h1
    · exact hparse u h1
    · rw [blurUnits, List.mem_map] at h1
      obtain ⟨s, hs, hsu⟩ := h1
      rw [← hsu]
      exact hparse s hs
  obtain ⟨last', hrotfold⟩ := rotFoldStruct tr (samples ++ blurUnits samples)
    (poolOf samples ++ blurOut samples) none hPU hdotU hparseU hnd
  have hrot : rotate_image_and_labels tr (poolOf samples ++ blurOut samples) =
      Except.ok (poolOf samples ++ blurOut samples ++
        rotOut tr (samples ++ blurUnits samples)) := by
    apply rotate_of_fold
    rw [hldPB]
    exact hrotfold
  have hld2 : listdir (poolOf samples ++ blurOut samples ++
      rotOut tr (samples ++ blurUnits samples)) =
      (listdir (poolOf samples) ++ listdir (blurOut samples)) ++
        listdir (rotOut tr (samples ++ blurUnits samples)) := by
    rw [listdir_append, listdir_append]
  have hmems : ∀ s ∈ samples,
      pngS (s.1 ++ blSfx) ∈ listdir (poolOf samples ++ blurOut samples ++
        rotOut tr (samples ++ blurUnits samples)) ∧
      pngS (s.1 ++ blSfx ++ roSfx) ∈ listdir (poolOf samples ++ blurOut samples ++
        rotOut tr (samples ++ blurUnits samples)) ∧
      txtS (s.1 ++ blSfx ++ roSfx) ∈ listdir (poolOf samples ++ blurOut samples ++
        rotOut tr (samples ++ blurUnits samples)) := by
    intro s hs
    have hu : ((s.1 ++ blSfx, ImgData.blurred s.2.1, s.2.2) : PoolSample) ∈
        blurUnits samples := by
      rw [blurUnits, List.mem_map]
      exact ⟨s, hs, rfl⟩
    have hm1 := (mem_listdir_poolOf hu).1
    rw [← blurOut_eq] at hm1
    have hru : ((s.1 ++ blSfx ++ roSfx, ImgData.rotated (ImgData.blurred s.2.1),
        rotLabel tr s.2.2) : PoolSample) ∈
        rotUnits tr (samples ++ blurUnits samples) := by
      rw [rotUnits, List.mem_map]
      exact ⟨(s.1 ++ blSfx, ImgData.blurred s.2.1, s.2.2),
        List.mem_append_right _ hu, rfl⟩
    have hm2 := (mem_listdir_poolOf hru).1
    have hm3 := (mem_listdir_poolOf hru).2
    rw [← rotOut_eq] at hm2 hm3
    refine ⟨?_, ?_, ?_⟩
    · rw [hld2]
      exact List.mem_append_left _ (List.mem_append_right _ hm1)
    · rw [hld2]
      exact List.mem_append_right _ hm2
    · rw [hld2]
      exact List.mem_append_right _ hm3
  have hd2eq : poolOf samples ++ blurOut samples ++
      rotOut tr (samples ++ blurUnits samples) =
      poolOf ((samples ++ blurUnits samples) ++
        rotUnits tr (samples ++ blurUnits samples)) := by
    rw [blurOut_eq, rotOut_eq, ← poolOf_append, ← poolOf_append]
  have hwf2 : ∀ g ∈ listdir (poolOf samples ++ blurOut samples ++
      rotOut tr (samples ++ blurUnits samples)),
      strEndsWith (strLower g) ".png" = true →
      ∃ px, lookup (poolOf samples ++ blurOut samples ++
        rotOut tr (samples ++ blurUnits samples)) g = some (.image px) := by
    intro g hg hci
    rw [hd2eq] at hg ⊢
    exact wf_poolOf _ g hg hci
  obtain ⟨d₃, hfold3, hmono3, hbn3⟩ := blur_fold_inv
    (listdir (poolOf samples ++ blurOut samples ++
      rotOut tr (samples ++ blurUnits samples)))
    (poolOf samples ++ blurOut samples ++ rotOut tr (samples ++ blurUnits samples))
    hwf2 (fun g hg => hg)
  refine ⟨hblur, hrot, hmems, d₃, ?_, ?_⟩
  · rw [blur_images]
    exact hfold3
  · intro s hs
    have hf1 := (hmems s hs).1
    have hsd : ∀ c ∈ s.1 ++ blSfx, c ≠ '.' := by
      intro c hc
      rcases List.mem_append.mp hc with h2 | h2
      · exact hdot s hs c h2
      · exact hblDot c h2
    have hderived := hbn3 _ hf1 (ciPng_pngS _)
    have hname : (splitext (pngS (s.1 ++ blSfx))).1 ++ "-blurry" ++
        (splitext (pngS (s.1 ++ blSfx))).2 = pngS (s.1 ++ blSfx ++ blSfx) := by
      rw [splitext_pngS hsd]
      rfl
    rw [hname] at hderived
    exact hderived

/-- C9 witness: the pipeline theorem applied to a concrete one-sample pool with
a fixed transform. -/
theorem c9_augmentation_compounds_witness :
    ((∀ s ∈ samplesA, ∀ c ∈ s.1, c ≠ '.') ∧
      (∀ s ∈ samplesA, parseOk s.2.2 = true) ∧
      (listdir (poolOf samplesA ++ blurOut samplesA ++
        rotOut trNone (samplesA ++ blurUnits samplesA))).Nodup) ∧
    (blur_images (poolOf samplesA) = Except.ok (poolOf samplesA ++ blurOut samplesA) ∧
    rotate_image_and_labels trNone (poolOf samplesA ++ blurOut samplesA) =
      Except.ok (poolOf samplesA ++ blurOut samplesA ++
        rotOut trNone (samplesA ++ blurUnits samplesA)) ∧
    (∀ s ∈ samplesA,
      pngS (s.1 ++ blSfx) ∈ listdir (poolOf samplesA ++ blurOut samplesA ++
        rotOut trNone (samplesA ++ blurUnits samplesA)) ∧
      pngS (s.1 ++ blSfx ++ roSfx) ∈ listdir (poolOf samplesA ++ blurOut samplesA ++
        rotOut trNone (samplesA ++ blurUnits samplesA)) ∧
      txtS (s.1 ++ blSfx ++ roSfx) ∈ listdir (poolOf samplesA ++ blurOut samplesA ++
        rotOut trNone (samplesA ++ blurUnits samplesA))) ∧
    (∃ d₃, blur_images (poolOf samplesA ++ blurOut samplesA ++
        rotOut trNone (samplesA ++ blurUnits samplesA)) = Except.ok d₃ ∧
      ∀ s ∈ samplesA, pngS (s.1 ++ blSfx ++ blSfx) ∈ listdir d₃)) :=
  ⟨⟨by decide, by decide, by decide⟩,
    c9_augmentation_compounds samplesA trNone (by decide) (by decide) (by decide)⟩

end SplitDataModel
